import Mathlib

/-!
Verification of the power-tree electrical evaluation engine
(`src/model/stage.py` and `src/graphics/scene.py`).

Shallow embedding conventions:
* Python floats are modelled by the type `F`: an exact rational (`Q`, a
  normalised numerator/denominator pair, kept executable so that closed
  computations reduce in the kernel) together with the IEEE special
  values `+inf`, `-inf` and `nan` that the source manufactures
  (`float("inf")`) or that arithmetic on user-supplied values can
  produce.  Rounding of binary floating point is abstracted away: every
  float literal of the source (`0.1`, `1.05`, ...) is taken at its exact
  decimal value.
* Diagnostics are produced by string formatting in the source; each
  distinct format string is modelled by one constructor of `Diag`
  carrying exactly the values interpolated into the message, so equality
  of `Diag` lists corresponds to equality of the rendered strings.
* The Qt scene dictionary `self.nodes` (insertion ordered) is modelled
  by a `List NodeItem`; `self.edges` by a list of (source id,
  destination id) pairs.  Mutation of `stage` objects in place is
  modelled by threading the node list through each loop.
* `while` loops of the source (Kahn's algorithm, the upstream-chain
  walk) are modelled with an explicit fuel argument chosen large enough
  that, on the states the claims quantify over, the fuel is proved never
  to run out.
* UI-only side effects (`refresh_text`, `update_edges`,
  `QMessageBox.warning`, `refresh_errors`) have no bearing on the engine
  state and are not modelled.
-/

/-- Executable rational numbers: numerator and denominator kept
normalised (positive denominator, coprime) by the smart constructor
`Q.norm`, so that structural equality of values built by the arithmetic
below coincides with value equality, as for Python floats. -/
structure Q where
  num : Int
  den : Nat
deriving DecidableEq, Repr

/-- Normalised fraction n / d (any d ≠ 0; the d = 0 branch is never
used by the operations below). -/
def Q.norm (n d : Int) : Q :=
  if d = 0 then ⟨0, 1⟩
  else
    let n' := if d < 0 then -n else n
    let d' := d.natAbs
    let g := Nat.gcd n'.natAbs d'
    ⟨n' / (g : Int), d' / g⟩

/-- Embed an integer. -/
def Q.ofInt (n : Int) : Q := ⟨n, 1⟩

def Q.add (a b : Q) : Q := Q.norm (a.num * b.den + b.num * a.den) (a.den * b.den)

def Q.neg (a : Q) : Q := ⟨-a.num, a.den⟩

def Q.sub (a b : Q) : Q := Q.add a (Q.neg b)

def Q.mul (a b : Q) : Q := Q.norm (a.num * b.num) (a.den * b.den)

/-- Division; the divisor is nonzero wherever the source divides. -/
def Q.div (a b : Q) : Q := Q.norm (a.num * b.den) (a.den * b.num)

def Q.abs (a : Q) : Q := ⟨|a.num|, a.den⟩

def Q.blt (a b : Q) : Bool := decide (a.num * b.den < b.num * a.den)

def Q.ble (a b : Q) : Bool := decide (a.num * b.den ≤ b.num * a.den)

/-- Model of a Python float value: exact rational, +infinity, -infinity
or nan. -/
inductive F where
  | fin (q : Q)
  | inf
  | ninf
  | nan
deriving DecidableEq, Repr

namespace F

/-- Rational literal n / d, for transcribing decimal literals of the
source. -/
def lit (n d : Int) : F := fin (Q.norm n d)

/-- Integer literal. -/
def int (n : Int) : F := fin (Q.ofInt n)

/-- IEEE-style addition. -/
def add : F → F → F
  | nan, _ => nan
  | _, nan => nan
  | inf, ninf => nan
  | ninf, inf => nan
  | inf, _ => inf
  | _, inf => inf
  | ninf, _ => ninf
  | _, ninf => ninf
  | fin a, fin b => fin (Q.add a b)

/-- IEEE-style negation. -/
def neg : F → F
  | nan => nan
  | inf => ninf
  | ninf => inf
  | fin a => fin (Q.neg a)

/-- IEEE-style subtraction. -/
def sub (a b : F) : F := add a (neg b)

/-- IEEE-style multiplication (0 * inf = nan). -/
def mul : F → F → F
  | nan, _ => nan
  | _, nan => nan
  | fin a, fin b => fin (Q.mul a b)
  | inf, inf => inf
  | inf, ninf => ninf
  | ninf, inf => ninf
  | ninf, ninf => inf
  | fin a, inf => if Q.blt (Q.ofInt 0) a then inf else if Q.blt a (Q.ofInt 0) then ninf else nan
  | fin a, ninf => if Q.blt (Q.ofInt 0) a then ninf else if Q.blt a (Q.ofInt 0) then inf else nan
  | inf, fin b => if Q.blt (Q.ofInt 0) b then inf else if Q.blt b (Q.ofInt 0) then ninf else nan
  | ninf, fin b => if Q.blt (Q.ofInt 0) b then ninf else if Q.blt b (Q.ofInt 0) then inf else nan

/-- IEEE-style division.  Python raises `ZeroDivisionError` on a finite
division by zero; every division in the source is guarded so that its
divisor is nonzero, hence the value returned in that dead branch is
never observed. -/
def div : F → F → F
  | nan, _ => nan
  | _, nan => nan
  | fin a, fin b => if b.num = 0 then nan else fin (Q.div a b)
  | fin _, inf => int 0
  | fin _, ninf => int 0
  | inf, fin b => if Q.blt (Q.ofInt 0) b then inf else if Q.blt b (Q.ofInt 0) then ninf else nan
  | ninf, fin b => if Q.blt (Q.ofInt 0) b then ninf else if Q.blt b (Q.ofInt 0) then inf else nan
  | inf, _ => nan
  | ninf, _ => nan

/-- IEEE-style absolute value. -/
def abs : F → F
  | nan => nan
  | inf => inf
  | ninf => inf
  | fin a => fin (Q.abs a)

/-- IEEE-style strict comparison; any comparison with nan is false. -/
def lt : F → F → Bool
  | nan, _ => false
  | _, nan => false
  | fin a, fin b => Q.blt a b
  | fin _, inf => true
  | inf, _ => false
  | ninf, ninf => false
  | ninf, _ => true
  | _, ninf => false

/-- IEEE-style non-strict comparison; any comparison with nan is false. -/
def le : F → F → Bool
  | nan, _ => false
  | _, nan => false
  | fin a, fin b => Q.ble a b
  | fin _, inf => true
  | inf, inf => true
  | inf, _ => false
  | ninf, _ => true
  | _, ninf => false

/-- Python equality test with 0 (`self.vin_effective != 0` etc.):
nan ≠ 0 is true, and only the finite value 0 compares equal to 0. -/
def isZero : F → Bool
  | fin a => a.num = 0
  | _ => false

/-- Model of `math.isfinite`. -/
def isfinite : F → Bool
  | fin _ => true
  | _ => false

/-- CPython two-argument `min`: the second argument is returned only if
it compares strictly below the first (hence `min(1.0, nan) = 1.0`). -/
def pymin (a b : F) : F := if lt b a then b else a

/-- CPython two-argument `max`: the second argument is returned only if
it compares strictly above the first. -/
def pymax (a b : F) : F := if lt a b then b else a

end F

/-- Python `str.upper()` (ASCII data in this code base).  Written as a
plain list map because `String.toUpper` does not reduce inside the
kernel. -/
def pyUpper (s : String) : String := ⟨s.data.map Char.toUpper⟩

/-- One diagnostic message, one constructor per format string of the
source, carrying the interpolated values. -/
inductive Diag where
  /-- stage.py line 60: source output voltage outside its valid band. -/
  | source_range (name : String) (vout vmin vmax : F)
  /-- stage.py line 82: LDO input below output plus dropout margin. -/
  | ldo_dropout (name : String) (vin vout : F)
  /-- stage.py line 107: requested output current above the IC ceiling. -/
  | ic_max (name : String) (imax iout : F)
  /-- stage.py line 110: effective input voltage outside the narrowed
  `[vin_min*1.05, vin_max*0.95]` band. -/
  | vin_range (name : String) (vin vmin vmax : F)
  /-- scene.py line 306: total load above the source current limit. -/
  | supply_over (name : String) (total imax : F)
  /-- scene.py line 310: total load close to the source current limit. -/
  | supply_close (name : String) (total imax : F)
deriving DecidableEq, Repr

/-- The `PowerStage` dataclass of `src/model/stage.py`, with the
dataclass defaults.  `id` has no default: the source draws a fresh
uuid4 string, modelled by explicit id supply. -/
structure PowerStage where
  id : String
  stage_type : String := "LDO"
  name : String := "Stage"
  ic_name : String := ""
  vin_min : F := F.int 0
  vin_max : F := F.int 20
  vin_nom : F := F.int 12
  vout : F := F.int 12
  iout_user : F := F.int 0
  iout_max_ic : F := F.int 1
  efficiency_user : F := F.lit 9 10
  iq : F := F.int 0
  notes : String := ""
  upstream : Option String := none
  color : String := "ffffff"
  vin_effective : F := F.int 0
  eff_effective : F := F.int 1
  p_out : F := F.int 0
  p_in : F := F.int 0
  p_diss : F := F.int 0
  p_iq : F := F.int 0
  p_tot : F := F.int 0
  i_in : F := F.int 0
  load_current : F := F.int 0
  errors : List Diag := []
deriving DecidableEq, Repr

/-- `PowerStage.compute` of `src/model/stage.py` lines 42-110, as a pure
state transformer. -/
def PowerStage.compute (st0 : PowerStage) (upstream_vout : Option F) : PowerStage :=
  let vin := upstream_vout.getD st0.vin_nom
  let st : PowerStage := { st0 with errors := [], vin_effective := vin }
  let stype := pyUpper st.stage_type
  if stype = "INPUT" then
    { st with
      errors :=
        if F.le st.vin_min st.vout && F.le st.vout st.vin_max then []
        else [Diag.source_range st.name st.vout st.vin_min st.vin_max],
      p_out := F.mul st.vout st.iout_user,
      p_in := F.mul st.vout st.iout_user,
      i_in := st.iout_user }
  else if stype = "LOAD" then
    let vnom := upstream_vout.getD st.vin_nom
    { st with
      vin_nom := vnom,
      vout := vnom,
      p_out := F.mul (F.abs vnom) st.load_current,
      p_in := F.mul (F.abs vnom) st.load_current,
      i_in := st.load_current }
  else if stype = "LDO" ∨ stype = "DCDC" then
    let drop_errs :=
      if stype = "LDO" then
        if F.le (F.abs st.vin_effective) (F.add (F.abs st.vout) (F.lit 1 10)) then
          [Diag.ldo_dropout st.name st.vin_effective st.vout]
        else []
      else []
    let eff0 :=
      if stype = "LDO" then
        if F.isZero st.vin_effective then F.int 0
        else F.div (F.abs st.vout) (F.abs st.vin_effective)
      else F.pymax (F.int 0) (F.pymin (F.int 1) st.efficiency_user)
    let eff := F.pymax (F.int 0) (F.pymin (F.int 1) eff0)
    let p_out := F.mul (F.abs st.vout) st.iout_user
    let p_in := if F.lt (F.int 0) eff then F.div p_out eff else F.inf
    let i_in := if F.isZero st.vin_effective then F.inf else F.div p_in (F.abs st.vin_effective)
    let p_iq := F.mul (F.div st.iq (F.int 1000000)) st.vin_effective
    let p_diss := if F.isfinite p_in then F.sub p_in p_out else F.inf
    let p_tot := F.add (if F.isfinite p_diss then p_diss else F.int 0) p_iq
    let errs2 :=
      if F.lt st.iout_max_ic st.iout_user then
        [Diag.ic_max st.name st.iout_max_ic st.iout_user]
      else []
    let errs3 :=
      if F.le (F.mul st.vin_min (F.lit 21 20)) st.vin_effective &&
         F.le st.vin_effective (F.mul st.vin_max (F.lit 19 20)) then []
      else [Diag.vin_range st.name st.vin_effective st.vin_min st.vin_max]
    { st with
      eff_effective := eff,
      p_out := p_out,
      p_in := p_in,
      i_in := i_in,
      p_iq := p_iq,
      p_diss := p_diss,
      p_tot := p_tot,
      errors := drop_errs ++ errs2 ++ errs3 }
  else st

/-- One entry of the scene's `self.nodes` dictionary: a `NodeItem`
wraps its `PowerStage` and a 2-D position. -/
structure NodeItem where
  stage : PowerStage
  pos : Q × Q
deriving DecidableEq, Repr

/-- The engine state of `PowerScene`: the insertion-ordered node
dictionary and the edge list. -/
structure PowerScene where
  nodes : List NodeItem
  edges : List (String × String)
deriving DecidableEq, Repr

/-- `self.nodes.get(i)`: node ids are dictionary keys, hence unique;
on the lists used here the first match is the entry. -/
def nodesGet (nodes : List NodeItem) (i : String) : Option NodeItem :=
  nodes.find? (fun n => n.stage.id == i)

/-- In-place mutation of the stage stored under id `i`. -/
def updateStage (nodes : List NodeItem) (i : String) (f : PowerStage → PowerStage) :
    List NodeItem :=
  nodes.map (fun n => if n.stage.id == i then { n with stage := f n.stage } else n)

/-- Python truthiness of the `upstream` field (`if node.stage.upstream:`):
`None` and the empty string are falsy. -/
def upstreamTruthy : Option String → Bool
  | none => false
  | some s => !(s == "")

/-- scene.py lines 36-39 and 264-267: in-degree of every node id
(1 if its upstream field is truthy, else 0), built by iterating the
node list. -/
def initIncoming (nodes : List NodeItem) : String → Int :=
  nodes.foldl
    (fun inc n =>
      if upstreamTruthy n.stage.upstream then
        fun i => if i == n.stage.id then inc i + 1 else inc i
      else inc)
    (fun _ => 0)

/-- Inner neighbour loop of Kahn's algorithm (scene.py lines 50-54 and
276-280): scan the node list; every node whose upstream equals the
current id has its in-degree decremented and is pushed when it reaches
zero and is not yet visited.  The work stack is represented with its
top at the head (Python pushes/pops at the end of the list). -/
def procNeighbors (curId : String) (visited : List String) :
    (String → Int) → List NodeItem → List NodeItem → ((String → Int) × List NodeItem)
  | inc, stk, [] => (inc, stk)
  | inc, stk, n :: rest =>
    if n.stage.upstream == some curId then
      let inc' := fun i => if i == n.stage.id then inc i - 1 else inc i
      let stk' :=
        if inc' n.stage.id == 0 && !(visited.contains n.stage.id) then n :: stk else stk
      procNeighbors curId visited inc' stk' rest
    else procNeighbors curId visited inc stk rest

/-- The `while work_stack:` loop of Kahn's algorithm, with fuel; the
result is the topological order produced.  On the well-formed states
the claims quantify over, the fuel `2 * |nodes| + 2` is never
exhausted. -/
def kahnLoop (nodes : List NodeItem) :
    Nat → (String → Int) → List NodeItem → List String → List NodeItem → List NodeItem
  | 0, _, _, _, acc => acc.reverse
  | _ + 1, _, [], _, acc => acc.reverse
  | fuel + 1, inc, cur :: stk, visited, acc =>
    let visited' := cur.stage.id :: visited
    let r := procNeighbors cur.stage.id visited' inc stk nodes
    kahnLoop nodes fuel r.1 r.2 visited' (cur :: acc)

/-- Kahn's-algorithm topological order as computed by the source:
seeds are the in-degree-0 nodes in iteration order, popped from the end
of the work list. -/
def kahnOrder (nodes : List NodeItem) : List NodeItem :=
  let inc := initIncoming nodes
  let seeds := (nodes.filter (fun n => inc n.stage.id == 0)).reverse
  kahnLoop nodes (2 * nodes.length + 2) inc seeds [] []

/-- Sum of `i_in` over the direct children of `pid` (scene.py lines
61-64), in node-list order. -/
def sumChildrenIin (nodes : List NodeItem) (pid : String) : F :=
  nodes.foldl
    (fun acc c => if c.stage.upstream == some pid then F.add acc c.stage.i_in else acc)
    (F.int 0)

/-- `PowerScene.compute_requested_currents` (scene.py lines 29-65):
walk the reversed topological order and store each node's requested
current. -/
def compute_requested_currents (nodes : List NodeItem) : List NodeItem :=
  (kahnOrder nodes).reverse.foldl
    (fun acc n =>
      updateStage acc n.stage.id
        (fun st =>
          if pyUpper st.stage_type = "LOAD" then { st with iout_user := st.load_current }
          else { st with iout_user := sumChildrenIin acc n.stage.id }))
    nodes

/-- `PowerScene.depth` (scene.py lines 243-247), with fuel for the
recursion over the children relation; on acyclic states a fuel of
`|nodes|` always suffices. -/
def depthAux (nodes : List NodeItem) : Nat → String → Nat
  | 0, _ => 1
  | fuel + 1, pid =>
    let cs := nodes.filter (fun n => n.stage.upstream == some pid)
    if cs.isEmpty then 1
    else 1 + (cs.map (fun c => depthAux nodes fuel c.stage.id)).foldl Nat.max 0

/-- scene.py lines 253-256: maximum depth over the INPUT-typed nodes. -/
def scene_max_depth (nodes : List NodeItem) : Nat :=
  nodes.foldl
    (fun m n =>
      if pyUpper n.stage.stage_type = "INPUT" then
        Nat.max m (depthAux nodes nodes.length n.stage.id)
      else m)
    0

/-- scene.py lines 282-286: the pass order is the Kahn order followed by
any node not reached by it (in node-list order). -/
def sweepOrder (nodes : List NodeItem) : List NodeItem :=
  let base := kahnOrder nodes
  let orderedIds := base.map (fun n => n.stage.id)
  base ++ nodes.filter (fun n => !(orderedIds.contains n.stage.id))

/-- scene.py lines 289-296: call `compute` on every node of the order,
feeding it the current `vout` of its upstream when that node exists. -/
def computeSweep (order : List String) (nodes : List NodeItem) : List NodeItem :=
  order.foldl
    (fun acc i =>
      match nodesGet acc i with
      | none => acc
      | some nd =>
        let uv :=
          if upstreamTruthy nd.stage.upstream then
            (nodesGet acc (nd.stage.upstream.getD "")).map (fun u => u.stage.vout)
          else none
        updateStage acc i (fun st => st.compute uv))
    nodes

/-- Sum of `iout_user` over the direct children of `pid` (scene.py lines
302-304). -/
def sumChildrenIout (nodes : List NodeItem) (pid : String) : F :=
  nodes.foldl
    (fun acc c => if c.stage.upstream == some pid then F.add acc c.stage.iout_user else acc)
    (F.int 0)

/-- scene.py lines 298-311: the per-pass supply-capacity check over
INPUT nodes, appending a hard or soft diagnostic. -/
def supplyCheck (nodes : List NodeItem) : List NodeItem :=
  (nodes.map (fun n => n.stage.id)).foldl
    (fun acc i =>
      match nodesGet acc i with
      | none => acc
      | some nd =>
        if pyUpper nd.stage.stage_type = "INPUT" then
          let total := sumChildrenIout acc nd.stage.id
          if F.lt nd.stage.iout_max_ic total then
            updateStage acc i
              (fun st => { st with errors := st.errors ++ [Diag.supply_over st.name total st.iout_max_ic] })
          else if F.lt (F.mul nd.stage.iout_max_ic (F.lit 9 10)) total then
            updateStage acc i
              (fun st => { st with errors := st.errors ++ [Diag.supply_close st.name total st.iout_max_ic] })
          else acc
        else acc)
    nodes

/-- One pass of the `for _pass in range(...)` loop of
`PowerScene.recompute_all` (scene.py lines 259-311). -/
def onePass (nodes : List NodeItem) : List NodeItem :=
  let n1 := compute_requested_currents nodes
  let order := (sweepOrder n1).map (fun n => n.stage.id)
  supplyCheck (computeSweep order n1)

/-- `PowerScene.recompute_all` (scene.py lines 250-315): the number of
passes is computed once, from the depth of the INPUT-rooted trees. -/
def PowerScene.recompute_all (s : PowerScene) : PowerScene :=
  { s with nodes := Nat.iterate onePass (Nat.max 1 (scene_max_depth s.nodes)) s.nodes }

/-- Reason an `add_edge` call is rejected. -/
inductive AddEdgeError where
  | destinationAlreadyConnected
  | selfLoop
  | cycleDetected
deriving DecidableEq, Repr

/-- Outcome of an `add_edge` call.  `invalidNodes` models a call whose
arguments are not scene members; the UI only ever passes members. -/
inductive AddEdgeResult where
  | ok
  | rejected (e : AddEdgeError)
  | invalidNodes
deriving DecidableEq, Repr

/-- The `while current and current.stage.upstream:` walk of
`PowerScene._creates_cycle` (scene.py lines 136-151), with fuel;
`|nodes| + 1` suffices because every non-final iteration adds a fresh
id to `visited`. -/
def walkAux (nodes : List NodeItem) (dstId : String) :
    Nat → List String → NodeItem → Bool
  | 0, _, _ => false
  | fuel + 1, visited, cur =>
    if upstreamTruthy cur.stage.upstream then
      let upid := cur.stage.upstream.getD ""
      if visited.contains upid then false
      else
        match nodesGet nodes upid with
        | none => false
        | some upnode =>
          if upnode.stage.id == dstId then true
          else walkAux nodes dstId fuel (upid :: visited) upnode
    else false

/-- `PowerScene._creates_cycle` (scene.py lines 136-151). -/
def PowerScene.creates_cycle (s : PowerScene) (src dst : NodeItem) : Bool :=
  walkAux s.nodes dst.stage.id (s.nodes.length + 1) [] src

/-- `PowerScene.add_edge` (scene.py lines 118-134).  The source takes
the two `NodeItem` objects; callers always pass scene members, found by
id, so the embedding takes the ids and resolves them first. -/
def PowerScene.add_edge (s : PowerScene) (srcId dstId : String) :
    PowerScene × AddEdgeResult :=
  match nodesGet s.nodes srcId, nodesGet s.nodes dstId with
  | some src, some dst =>
    if dst.stage.upstream.isSome then
      (s, AddEdgeResult.rejected AddEdgeError.destinationAlreadyConnected)
    else if src.stage.id = dst.stage.id then
      (s, AddEdgeResult.rejected AddEdgeError.selfLoop)
    else if s.creates_cycle src dst then
      (s, AddEdgeResult.rejected AddEdgeError.cycleDetected)
    else
      let nodes' := updateStage s.nodes dst.stage.id
        (fun st => { st with upstream := some src.stage.id })
      (PowerScene.recompute_all
        { nodes := nodes', edges := s.edges ++ [(src.stage.id, dst.stage.id)] },
       AddEdgeResult.ok)
  | _, _ => (s, AddEdgeResult.invalidNodes)

/-- The serialised record of one stage (`PowerStage.to_dict`): a JSON
dictionary.  Every field except the identity is optional so that
`from_dict` on hand-written documents can exercise the missing-key
defaults; `id` is kept mandatory (a record without it would receive a
fresh uuid, which the embedding does not model). -/
structure StageRec where
  id : String
  stage_type : Option String := none
  name : Option String := none
  ic_name : Option String := none
  vin_min : Option F := none
  vin_max : Option F := none
  vin_nom : Option F := none
  vout : Option F := none
  iout_user : Option F := none
  iout_max_ic : Option F := none
  efficiency_user : Option F := none
  iq : Option F := none
  notes : Option String := none
  upstream : Option (Option String) := none
  color : Option String := none
  vin_effective : Option F := none
  eff_effective : Option F := none
  p_out : Option F := none
  p_in : Option F := none
  p_diss : Option F := none
  p_iq : Option F := none
  p_tot : Option F := none
  i_in : Option F := none
  load_current : Option F := none
  errors : Option (List Diag) := none
deriving DecidableEq, Repr

/-- `PowerStage.to_dict` (stage.py lines 112-113): `asdict` dumps every
field. -/
def PowerStage.to_dict (st : PowerStage) : StageRec :=
  { id := st.id,
    stage_type := some st.stage_type,
    name := some st.name,
    ic_name := some st.ic_name,
    vin_min := some st.vin_min,
    vin_max := some st.vin_max,
    vin_nom := some st.vin_nom,
    vout := some st.vout,
    iout_user := some st.iout_user,
    iout_max_ic := some st.iout_max_ic,
    efficiency_user := some st.efficiency_user,
    iq := some st.iq,
    notes := some st.notes,
    upstream := some st.upstream,
    color := some st.color,
    vin_effective := some st.vin_effective,
    eff_effective := some st.eff_effective,
    p_out := some st.p_out,
    p_in := some st.p_in,
    p_diss := some st.p_diss,
    p_iq := some st.p_iq,
    p_tot := some st.p_tot,
    i_in := some st.i_in,
    load_current := some st.load_current,
    errors := some st.errors }

/-- `PowerStage.from_dict` (stage.py lines 115-120): start from a
default-constructed stage and overwrite every field present in the
record. -/
def PowerStage.from_dict (r : StageRec) : PowerStage :=
  { id := r.id,
    stage_type := r.stage_type.getD "LDO",
    name := r.name.getD "Stage",
    ic_name := r.ic_name.getD "",
    vin_min := r.vin_min.getD (F.int 0),
    vin_max := r.vin_max.getD (F.int 20),
    vin_nom := r.vin_nom.getD (F.int 12),
    vout := r.vout.getD (F.int 12),
    iout_user := r.iout_user.getD (F.int 0),
    iout_max_ic := r.iout_max_ic.getD (F.int 1),
    efficiency_user := r.efficiency_user.getD (F.lit 9 10),
    iq := r.iq.getD (F.int 0),
    notes := r.notes.getD "",
    upstream := r.upstream.getD none,
    color := r.color.getD "ffffff",
    vin_effective := r.vin_effective.getD (F.int 0),
    eff_effective := r.eff_effective.getD (F.int 1),
    p_out := r.p_out.getD (F.int 0),
    p_in := r.p_in.getD (F.int 0),
    p_diss := r.p_diss.getD (F.int 0),
    p_iq := r.p_iq.getD (F.int 0),
    p_tot := r.p_tot.getD (F.int 0),
    i_in := r.i_in.getD (F.int 0),
    load_current := r.load_current.getD (F.int 0),
    errors := r.errors.getD [] }

/-- One node entry of the serialised document. -/
structure DocNode where
  stage : StageRec
  pos : Option (Q × Q) := none
deriving DecidableEq, Repr

/-- The serialised document (`Document` of the specification). -/
structure Document where
  nodes : List DocNode := []
  edges : List (String × String) := []
deriving DecidableEq, Repr

/-- `PowerScene.serialize` (scene.py lines 318-324). -/
def PowerScene.serialize (s : PowerScene) : Document :=
  { nodes := s.nodes.map (fun n => { stage := n.stage.to_dict, pos := some n.pos }),
    edges := s.edges }

/-- Dictionary insertion `self.nodes[st.id] = node_item`: replace an
existing entry in place, else append. -/
def nodesInsert (nodes : List NodeItem) (n : NodeItem) : List NodeItem :=
  if nodes.any (fun m => m.stage.id == n.stage.id) then
    nodes.map (fun m => if m.stage.id == n.stage.id then n else m)
  else nodes ++ [n]

/-- One iteration of the edge loop of `PowerScene.deserialize`
(scene.py lines 340-345): when both endpoints of the edge are loaded,
point the destination's upstream at the source and record the edge. -/
def deserializeEdgeStep (p : List NodeItem × List (String × String))
    (e : String × String) : List NodeItem × List (String × String) :=
  match nodesGet p.1 e.1, nodesGet p.1 e.2 with
  | some src, some dst =>
    (updateStage p.1 dst.stage.id (fun st => { st with upstream := some src.stage.id }),
     p.2 ++ [(src.stage.id, dst.stage.id)])
  | _, _ => p

/-- `PowerScene.deserialize` (scene.py lines 326-348): rebuild nodes
from the records, then set `upstream` along each edge whose two
endpoints were loaded, then run one full recompute. -/
def PowerScene.deserialize (doc : Document) : PowerScene :=
  let nodes1 := doc.nodes.foldl
    (fun acc nd =>
      nodesInsert acc { stage := PowerStage.from_dict nd.stage, pos := nd.pos.getD (Q.ofInt 0, Q.ofInt 0) })
    []
  let r := doc.edges.foldl deserializeEdgeStep (nodes1, [])
  PowerScene.recompute_all { nodes := r.1, edges := r.2 }

/-- The stage fields that no recompute pass ever writes (`compute`
writes only the computed fields plus, for LOAD stages, `vin_nom` and
`vout`; the current propagator writes `iout_user`; the supply check
appends to `errors`). -/
structure StageConf where
  id : String
  stage_type : String
  name : String
  ic_name : String
  vin_min : F
  vin_max : F
  iout_max_ic : F
  efficiency_user : F
  iq : F
  notes : String
  upstream : Option String
  color : String
  load_current : F
deriving DecidableEq, Repr

/-- Projection of a stage onto its recompute-invariant fields. -/
def PowerStage.conf (st : PowerStage) : StageConf :=
  { id := st.id, stage_type := st.stage_type, name := st.name, ic_name := st.ic_name,
    vin_min := st.vin_min, vin_max := st.vin_max, iout_max_ic := st.iout_max_ic,
    efficiency_user := st.efficiency_user, iq := st.iq, notes := st.notes,
    upstream := st.upstream, color := st.color, load_current := st.load_current }

/-- Projection of a node list onto the recompute-invariant data. -/
def confs (nodes : List NodeItem) : List (StageConf × (Q × Q)) :=
  nodes.map (fun n => (n.stage.conf, n.pos))

/-- The id/upstream view of the node list, through which the upstream
relation and well-formedness are defined. -/
def skeleton (nodes : List NodeItem) : List (String × Option String) :=
  nodes.map (fun n => (n.stage.id, n.stage.upstream))

/-- The id list, in node order. -/
def idsOf (nodes : List NodeItem) : List String :=
  nodes.map (fun n => n.stage.id)

/-- The upstream relation of the graph: `upRel nodes a b` holds when the
scene holds a node with id `a` whose upstream field is `b`. -/
def upRel (nodes : List NodeItem) (a b : String) : Prop :=
  (a, some b) ∈ skeleton nodes

/-- Acyclicity of the upstream relation, as in the specification: no id
reaches itself through the transitive closure. -/
def AcyclicNodes (nodes : List NodeItem) : Prop :=
  ∀ a, ¬ Relation.TransGen (upRel nodes) a a

/-- Basic store well-formedness: ids are unique dictionary keys and
nonempty (uuid4 strings). -/
def WFNodes (nodes : List NodeItem) : Prop :=
  (idsOf nodes).Nodup ∧ ∀ n ∈ nodes, n.stage.id ≠ ""

/-- Every set upstream field points at a node of the store (true of
every state built by the mutation API, which only ever writes existing
ids into `upstream`). -/
def UpValid (nodes : List NodeItem) : Prop :=
  ∀ n ∈ nodes, ∀ u, n.stage.upstream = some u → u ≠ "" ∧ u ∈ idsOf nodes

instance (nodes : List NodeItem) : Decidable (WFNodes nodes) := by
  unfold WFNodes
  infer_instance

instance (nodes : List NodeItem) : Decidable (UpValid nodes) := by
  unfold UpValid
  infer_instance

/-- Executable cycle detector: follow the (unique, under `WFNodes`)
upstream chain from `cur` for at most `fuel` steps and report whether it
reaches `target`. -/
def chainReaches (nodes : List NodeItem) : Nat → String → String → Bool
  | 0, _, _ => false
  | fuel + 1, cur, target =>
    match (nodesGet nodes cur).bind (fun n => n.stage.upstream) with
    | none => false
    | some u => u == target || chainReaches nodes fuel u target

/-- Executable acyclicity check, equivalent to `AcyclicNodes` on
well-formed stores. -/
def acyclicB (nodes : List NodeItem) : Bool :=
  nodes.all (fun n => !(chainReaches nodes nodes.length n.stage.id n.stage.id))

/-- An explicit upstream path: `UpListPath nodes a l b` is a chain of
upstream steps from `a` to `b` through the intermediate ids `l`. -/
def UpListPath (nodes : List NodeItem) : String → List String → String → Prop
  | a, [], b => upRel nodes a b
  | a, c :: l, b => upRel nodes a c ∧ UpListPath nodes c l b

/-- The id list of the pop accumulator, which the source's `visited` set
always equals. -/
def accIds (acc : List NodeItem) : List String := acc.map (fun n => n.stage.id)

/-- Loop invariant of Kahn's algorithm as implemented: every node is
either seeded/pushed (in-degree 0) or still waits for its unique parent
to be popped (in-degree 1), and nothing is ever pushed twice. -/
def KahnInv (nodes : List NodeItem) (inc : String → Int)
    (stk acc : List NodeItem) : Prop :=
  (∀ n ∈ stk, n ∈ nodes) ∧ (∀ n ∈ acc, n ∈ nodes) ∧
  ((stk ++ acc).map (fun n => n.stage.id)).Nodup ∧
  (∀ v ∈ nodes,
    (upstreamTruthy v.stage.upstream = false →
      ((v ∈ stk ∨ v ∈ acc) ∧ inc v.stage.id = 0)) ∧
    (∀ u, v.stage.upstream = some u → u ≠ "" →
      ((u ∈ accIds acc → ((v ∈ stk ∨ v ∈ acc) ∧ inc v.stage.id = 0)) ∧
       (u ∉ accIds acc → (v ∉ stk ∧ v ∉ acc ∧ inc v.stage.id = 1)))))

/-- A stage with its requested current blanked: the currents pass writes
only `iout_user`, so everything else factors through this projection. -/
def eraseIout (st : PowerStage) : PowerStage := { st with iout_user := F.int 0 }

/-- The node list seen through `eraseIout`. -/
def erases (nodes : List NodeItem) : List PowerStage :=
  nodes.map (fun n => eraseIout n.stage)

/-- The (id, requested current) view of the node list. -/
def iouts (nodes : List NodeItem) : List (String × F) :=
  nodes.map (fun n => (n.stage.id, n.stage.iout_user))

/-- The value the currents pass should store into a node. -/
def wantedIout (nodes : List NodeItem) (st : PowerStage) : F :=
  if pyUpper st.stage_type = "LOAD" then st.load_current
  else sumChildrenIin nodes st.id

/-- Applying a list of `add_edge` calls in order. -/
def applyAddEdges (s : PowerScene) (calls : List (String × String)) : PowerScene :=
  calls.foldl (fun t c => (t.add_edge c.1 c.2).1) s

/-- Two nodes `a`, `b` where `a` already has upstream `b`: used to
exhibit the check order of `add_edge`. -/
def cexSceneC2 : PowerScene :=
  { nodes := [⟨{ id := "a", upstream := some "b" }, (Q.ofInt 0, Q.ofInt 0)⟩,
              ⟨{ id := "b" }, (Q.ofInt 0, Q.ofInt 0)⟩],
    edges := [("b", "a")] }

/-- Fresh two-node scene used as witness input for the `add_edge`
characterisations. -/
def wnodeA : NodeItem := ⟨{ id := "a" }, (Q.ofInt 0, Q.ofInt 0)⟩

/-- Second witness node. -/
def wnodeB : NodeItem := ⟨{ id := "b" }, (Q.ofInt 0, Q.ofInt 0)⟩

/-- Witness scene: two unconnected nodes. -/
def wsceneC2 : PowerScene := { nodes := [wnodeA, wnodeB], edges := [] }

/-- Rewrite every stage's `stage_type` according to `g`, leaving all
other data (ids, upstream pointers, positions) untouched. -/
def retypeNodes (g : String → String) (nodes : List NodeItem) : List NodeItem :=
  nodes.map (fun n => { n with stage := { n.stage with stage_type := g n.stage.id } })

/-- Scene-level retyping. -/
def retypeScene (g : String → String) (s : PowerScene) : PowerScene :=
  { s with nodes := retypeNodes g s.nodes }

/-- Witness node: a SOURCE-typed stage. -/
def wnode10A : NodeItem := ⟨{ id := "a", stage_type := "INPUT" }, (Q.ofInt 0, Q.ofInt 0)⟩

/-- Witness node: a LOAD-typed stage. -/
def wnode10B : NodeItem := ⟨{ id := "b", stage_type := "LOAD" }, (Q.ofInt 0, Q.ofInt 0)⟩

/-- Witness scene: a SOURCE and a LOAD, unconnected. -/
def wscene10 : PowerScene := { nodes := [wnode10A, wnode10B], edges := [] }

/-- A three-stage chain LDO `a` → LDO `b` → LOAD `c` with
`load_current = 1`, as the mutation API builds it (upstream pointers
and the edge list in sync), before any recompute has propagated the
load.  The scene has no INPUT node, so `recompute_all` runs exactly
one pass on it. -/
def cexChain : PowerScene :=
  { nodes :=
      [⟨{ id := "a" }, (Q.ofInt 0, Q.ofInt 0)⟩,
       ⟨{ id := "b", upstream := some "a" }, (Q.ofInt 0, Q.ofInt 0)⟩,
       ⟨{ id := "c", stage_type := "LOAD", upstream := some "b",
          load_current := F.int 1 }, (Q.ofInt 0, Q.ofInt 0)⟩],
    edges := [("a", "b"), ("b", "c")] }

/-- Scenario A of the specification: SOURCE `a` (12 V band [11, 13],
2 A limit) → LDO `b` (5 V out) → LOAD `c` (0.5 A). -/
def scnA : PowerScene :=
  { nodes :=
      [⟨{ id := "a", stage_type := "INPUT", vin_nom := F.int 12, vout := F.int 12,
          vin_min := F.int 11, vin_max := F.int 13, iout_max_ic := F.int 2 },
        (Q.ofInt 0, Q.ofInt 0)⟩,
       ⟨{ id := "b", vout := F.int 5, upstream := some "a" }, (Q.ofInt 0, Q.ofInt 0)⟩,
       ⟨{ id := "c", stage_type := "LOAD", upstream := some "b",
          load_current := F.lit 1 2 }, (Q.ofInt 0, Q.ofInt 0)⟩],
    edges := [("a", "b"), ("b", "c")] }

/-- State of the counterexample chain after one recompute pass (generated by evaluating `onePass` and checked below by `decide`). -/
def cexPass1 : List NodeItem :=
  [{ stage := { id := "a",
                stage_type := "LDO",
                name := "Stage",
                ic_name := "",
                vin_min := F.fin { num := 0, den := 1 },
                vin_max := F.fin { num := 20, den := 1 },
                vin_nom := F.fin { num := 12, den := 1 },
                vout := F.fin { num := 12, den := 1 },
                iout_user := F.fin { num := 0, den := 1 },
                iout_max_ic := F.fin { num := 1, den := 1 },
                efficiency_user := F.fin { num := 9, den := 10 },
                iq := F.fin { num := 0, den := 1 },
                notes := "",
                upstream := none,
                color := "ffffff",
                vin_effective := F.fin { num := 12, den := 1 },
                eff_effective := F.fin { num := 1, den := 1 },
                p_out := F.fin { num := 0, den := 1 },
                p_in := F.fin { num := 0, den := 1 },
                p_diss := F.fin { num := 0, den := 1 },
                p_iq := F.fin { num := 0, den := 1 },
                p_tot := F.fin { num := 0, den := 1 },
                i_in := F.fin { num := 0, den := 1 },
                load_current := F.fin { num := 0, den := 1 },
                errors := [Diag.ldo_dropout "Stage" (F.fin { num := 12, den := 1 }) (F.fin { num := 12, den := 1 })] },
     pos := ({ num := 0, den := 1 }, { num := 0, den := 1 }) },
   { stage := { id := "b",
                stage_type := "LDO",
                name := "Stage",
                ic_name := "",
                vin_min := F.fin { num := 0, den := 1 },
                vin_max := F.fin { num := 20, den := 1 },
                vin_nom := F.fin { num := 12, den := 1 },
                vout := F.fin { num := 12, den := 1 },
                iout_user := F.fin { num := 0, den := 1 },
                iout_max_ic := F.fin { num := 1, den := 1 },
                efficiency_user := F.fin { num := 9, den := 10 },
                iq := F.fin { num := 0, den := 1 },
                notes := "",
                upstream := some "a",
                color := "ffffff",
                vin_effective := F.fin { num := 12, den := 1 },
                eff_effective := F.fin { num := 1, den := 1 },
                p_out := F.fin { num := 0, den := 1 },
                p_in := F.fin { num := 0, den := 1 },
                p_diss := F.fin { num := 0, den := 1 },
                p_iq := F.fin { num := 0, den := 1 },
                p_tot := F.fin { num := 0, den := 1 },
                i_in := F.fin { num := 0, den := 1 },
                load_current := F.fin { num := 0, den := 1 },
                errors := [Diag.ldo_dropout "Stage" (F.fin { num := 12, den := 1 }) (F.fin { num := 12, den := 1 })] },
     pos := ({ num := 0, den := 1 }, { num := 0, den := 1 }) },
   { stage := { id := "c",
                stage_type := "LOAD",
                name := "Stage",
                ic_name := "",
                vin_min := F.fin { num := 0, den := 1 },
                vin_max := F.fin { num := 20, den := 1 },
                vin_nom := F.fin { num := 12, den := 1 },
                vout := F.fin { num := 12, den := 1 },
                iout_user := F.fin { num := 1, den := 1 },
                iout_max_ic := F.fin { num := 1, den := 1 },
                efficiency_user := F.fin { num := 9, den := 10 },
                iq := F.fin { num := 0, den := 1 },
                notes := "",
                upstream := some "b",
                color := "ffffff",
                vin_effective := F.fin { num := 12, den := 1 },
                eff_effective := F.fin { num := 1, den := 1 },
                p_out := F.fin { num := 12, den := 1 },
                p_in := F.fin { num := 12, den := 1 },
                p_diss := F.fin { num := 0, den := 1 },
                p_iq := F.fin { num := 0, den := 1 },
                p_tot := F.fin { num := 0, den := 1 },
                i_in := F.fin { num := 1, den := 1 },
                load_current := F.fin { num := 1, den := 1 },
                errors := [] },
     pos := ({ num := 0, den := 1 }, { num := 0, den := 1 }) }]

/-- State of the counterexample chain after two recompute passes. -/
def cexPass2 : List NodeItem :=
  [{ stage := { id := "a",
                stage_type := "LDO",
                name := "Stage",
                ic_name := "",
                vin_min := F.fin { num := 0, den := 1 },
                vin_max := F.fin { num := 20, den := 1 },
                vin_nom := F.fin { num := 12, den := 1 },
                vout := F.fin { num := 12, den := 1 },
                iout_user := F.fin { num := 0, den := 1 },
                iout_max_ic := F.fin { num := 1, den := 1 },
                efficiency_user := F.fin { num := 9, den := 10 },
                iq := F.fin { num := 0, den := 1 },
                notes := "",
                upstream := none,
                color := "ffffff",
                vin_effective := F.fin { num := 12, den := 1 },
                eff_effective := F.fin { num := 1, den := 1 },
                p_out := F.fin { num := 0, den := 1 },
                p_in := F.fin { num := 0, den := 1 },
                p_diss := F.fin { num := 0, den := 1 },
                p_iq := F.fin { num := 0, den := 1 },
                p_tot := F.fin { num := 0, den := 1 },
                i_in := F.fin { num := 0, den := 1 },
                load_current := F.fin { num := 0, den := 1 },
                errors := [Diag.ldo_dropout "Stage" (F.fin { num := 12, den := 1 }) (F.fin { num := 12, den := 1 })] },
     pos := ({ num := 0, den := 1 }, { num := 0, den := 1 }) },
   { stage := { id := "b",
                stage_type := "LDO",
                name := "Stage",
                ic_name := "",
                vin_min := F.fin { num := 0, den := 1 },
                vin_max := F.fin { num := 20, den := 1 },
                vin_nom := F.fin { num := 12, den := 1 },
                vout := F.fin { num := 12, den := 1 },
                iout_user := F.fin { num := 1, den := 1 },
                iout_max_ic := F.fin { num := 1, den := 1 },
                efficiency_user := F.fin { num := 9, den := 10 },
                iq := F.fin { num := 0, den := 1 },
                notes := "",
                upstream := some "a",
                color := "ffffff",
                vin_effective := F.fin { num := 12, den := 1 },
                eff_effective := F.fin { num := 1, den := 1 },
                p_out := F.fin { num := 12, den := 1 },
                p_in := F.fin { num := 12, den := 1 },
                p_diss := F.fin { num := 0, den := 1 },
                p_iq := F.fin { num := 0, den := 1 },
                p_tot := F.fin { num := 0, den := 1 },
                i_in := F.fin { num := 1, den := 1 },
                load_current := F.fin { num := 0, den := 1 },
                errors := [Diag.ldo_dropout "Stage" (F.fin { num := 12, den := 1 }) (F.fin { num := 12, den := 1 })] },
     pos := ({ num := 0, den := 1 }, { num := 0, den := 1 }) },
   { stage := { id := "c",
                stage_type := "LOAD",
                name := "Stage",
                ic_name := "",
                vin_min := F.fin { num := 0, den := 1 },
                vin_max := F.fin { num := 20, den := 1 },
                vin_nom := F.fin { num := 12, den := 1 },
                vout := F.fin { num := 12, den := 1 },
                iout_user := F.fin { num := 1, den := 1 },
                iout_max_ic := F.fin { num := 1, den := 1 },
                efficiency_user := F.fin { num := 9, den := 10 },
                iq := F.fin { num := 0, den := 1 },
                notes := "",
                upstream := some "b",
                color := "ffffff",
                vin_effective := F.fin { num := 12, den := 1 },
                eff_effective := F.fin { num := 1, den := 1 },
                p_out := F.fin { num := 12, den := 1 },
                p_in := F.fin { num := 12, den := 1 },
                p_diss := F.fin { num := 0, den := 1 },
                p_iq := F.fin { num := 0, den := 1 },
                p_tot := F.fin { num := 0, den := 1 },
                i_in := F.fin { num := 1, den := 1 },
                load_current := F.fin { num := 1, den := 1 },
                errors := [] },
     pos := ({ num := 0, den := 1 }, { num := 0, den := 1 }) }]

/-- Scenario-A state after one recompute pass. -/
def scnAPass1 : List NodeItem :=
  [{ stage := { id := "a",
                stage_type := "INPUT",
                name := "Stage",
                ic_name := "",
                vin_min := F.fin { num := 11, den := 1 },
                vin_max := F.fin { num := 13, den := 1 },
                vin_nom := F.fin { num := 12, den := 1 },
                vout := F.fin { num := 12, den := 1 },
                iout_user := F.fin { num := 0, den := 1 },
                iout_max_ic := F.fin { num := 2, den := 1 },
                efficiency_user := F.fin { num := 9, den := 10 },
                iq := F.fin { num := 0, den := 1 },
                notes := "",
                upstream := none,
                color := "ffffff",
                vin_effective := F.fin { num := 12, den := 1 },
                eff_effective := F.fin { num := 1, den := 1 },
                p_out := F.fin { num := 0, den := 1 },
                p_in := F.fin { num := 0, den := 1 },
                p_diss := F.fin { num := 0, den := 1 },
                p_iq := F.fin { num := 0, den := 1 },
                p_tot := F.fin { num := 0, den := 1 },
                i_in := F.fin { num := 0, den := 1 },
                load_current := F.fin { num := 0, den := 1 },
                errors := [] },
     pos := ({ num := 0, den := 1 }, { num := 0, den := 1 }) },
   { stage := { id := "b",
                stage_type := "LDO",
                name := "Stage",
                ic_name := "",
                vin_min := F.fin { num := 0, den := 1 },
                vin_max := F.fin { num := 20, den := 1 },
                vin_nom := F.fin { num := 12, den := 1 },
                vout := F.fin { num := 5, den := 1 },
                iout_user := F.fin { num := 0, den := 1 },
                iout_max_ic := F.fin { num := 1, den := 1 },
                efficiency_user := F.fin { num := 9, den := 10 },
                iq := F.fin { num := 0, den := 1 },
                notes := "",
                upstream := some "a",
                color := "ffffff",
                vin_effective := F.fin { num := 12, den := 1 },
                eff_effective := F.fin { num := 5, den := 12 },
                p_out := F.fin { num := 0, den := 1 },
                p_in := F.fin { num := 0, den := 1 },
                p_diss := F.fin { num := 0, den := 1 },
                p_iq := F.fin { num := 0, den := 1 },
                p_tot := F.fin { num := 0, den := 1 },
                i_in := F.fin { num := 0, den := 1 },
                load_current := F.fin { num := 0, den := 1 },
                errors := [] },
     pos := ({ num := 0, den := 1 }, { num := 0, den := 1 }) },
   { stage := { id := "c",
                stage_type := "LOAD",
                name := "Stage",
                ic_name := "",
                vin_min := F.fin { num := 0, den := 1 },
                vin_max := F.fin { num := 20, den := 1 },
                vin_nom := F.fin { num := 5, den := 1 },
                vout := F.fin { num := 5, den := 1 },
                iout_user := F.fin { num := 1, den := 2 },
                iout_max_ic := F.fin { num := 1, den := 1 },
                efficiency_user := F.fin { num := 9, den := 10 },
                iq := F.fin { num := 0, den := 1 },
                notes := "",
                upstream := some "b",
                color := "ffffff",
                vin_effective := F.fin { num := 5, den := 1 },
                eff_effective := F.fin { num := 1, den := 1 },
                p_out := F.fin { num := 5, den := 2 },
                p_in := F.fin { num := 5, den := 2 },
                p_diss := F.fin { num := 0, den := 1 },
                p_iq := F.fin { num := 0, den := 1 },
                p_tot := F.fin { num := 0, den := 1 },
                i_in := F.fin { num := 1, den := 2 },
                load_current := F.fin { num := 1, den := 2 },
                errors := [] },
     pos := ({ num := 0, den := 1 }, { num := 0, den := 1 }) }]

/-- Scenario-A state after two recompute passes. -/
def scnAPass2 : List NodeItem :=
  [{ stage := { id := "a",
                stage_type := "INPUT",
                name := "Stage",
                ic_name := "",
                vin_min := F.fin { num := 11, den := 1 },
                vin_max := F.fin { num := 13, den := 1 },
                vin_nom := F.fin { num := 12, den := 1 },
                vout := F.fin { num := 12, den := 1 },
                iout_user := F.fin { num := 0, den := 1 },
                iout_max_ic := F.fin { num := 2, den := 1 },
                efficiency_user := F.fin { num := 9, den := 10 },
                iq := F.fin { num := 0, den := 1 },
                notes := "",
                upstream := none,
                color := "ffffff",
                vin_effective := F.fin { num := 12, den := 1 },
                eff_effective := F.fin { num := 1, den := 1 },
                p_out := F.fin { num := 0, den := 1 },
                p_in := F.fin { num := 0, den := 1 },
                p_diss := F.fin { num := 0, den := 1 },
                p_iq := F.fin { num := 0, den := 1 },
                p_tot := F.fin { num := 0, den := 1 },
                i_in := F.fin { num := 0, den := 1 },
                load_current := F.fin { num := 0, den := 1 },
                errors := [] },
     pos := ({ num := 0, den := 1 }, { num := 0, den := 1 }) },
   { stage := { id := "b",
                stage_type := "LDO",
                name := "Stage",
                ic_name := "",
                vin_min := F.fin { num := 0, den := 1 },
                vin_max := F.fin { num := 20, den := 1 },
                vin_nom := F.fin { num := 12, den := 1 },
                vout := F.fin { num := 5, den := 1 },
                iout_user := F.fin { num := 1, den := 2 },
                iout_max_ic := F.fin { num := 1, den := 1 },
                efficiency_user := F.fin { num := 9, den := 10 },
                iq := F.fin { num := 0, den := 1 },
                notes := "",
                upstream := some "a",
                color := "ffffff",
                vin_effective := F.fin { num := 12, den := 1 },
                eff_effective := F.fin { num := 5, den := 12 },
                p_out := F.fin { num := 5, den := 2 },
                p_in := F.fin { num := 6, den := 1 },
                p_diss := F.fin { num := 7, den := 2 },
                p_iq := F.fin { num := 0, den := 1 },
                p_tot := F.fin { num := 7, den := 2 },
                i_in := F.fin { num := 1, den := 2 },
                load_current := F.fin { num := 0, den := 1 },
                errors := [] },
     pos := ({ num := 0, den := 1 }, { num := 0, den := 1 }) },
   { stage := { id := "c",
                stage_type := "LOAD",
                name := "Stage",
                ic_name := "",
                vin_min := F.fin { num := 0, den := 1 },
                vin_max := F.fin { num := 20, den := 1 },
                vin_nom := F.fin { num := 5, den := 1 },
                vout := F.fin { num := 5, den := 1 },
                iout_user := F.fin { num := 1, den := 2 },
                iout_max_ic := F.fin { num := 1, den := 1 },
                efficiency_user := F.fin { num := 9, den := 10 },
                iq := F.fin { num := 0, den := 1 },
                notes := "",
                upstream := some "b",
                color := "ffffff",
                vin_effective := F.fin { num := 5, den := 1 },
                eff_effective := F.fin { num := 1, den := 1 },
                p_out := F.fin { num := 5, den := 2 },
                p_in := F.fin { num := 5, den := 2 },
                p_diss := F.fin { num := 0, den := 1 },
                p_iq := F.fin { num := 0, den := 1 },
                p_tot := F.fin { num := 0, den := 1 },
                i_in := F.fin { num := 1, den := 2 },
                load_current := F.fin { num := 1, den := 2 },
                errors := [] },
     pos := ({ num := 0, den := 1 }, { num := 0, den := 1 }) }]

/-- Scenario-A state after three recompute passes (the converged state). -/
def scnAPass3 : List NodeItem :=
  [{ stage := { id := "a",
                stage_type := "INPUT",
                name := "Stage",
                ic_name := "",
                vin_min := F.fin { num := 11, den := 1 },
                vin_max := F.fin { num := 13, den := 1 },
                vin_nom := F.fin { num := 12, den := 1 },
                vout := F.fin { num := 12, den := 1 },
                iout_user := F.fin { num := 1, den := 2 },
                iout_max_ic := F.fin { num := 2, den := 1 },
                efficiency_user := F.fin { num := 9, den := 10 },
                iq := F.fin { num := 0, den := 1 },
                notes := "",
                upstream := none,
                color := "ffffff",
                vin_effective := F.fin { num := 12, den := 1 },
                eff_effective := F.fin { num := 1, den := 1 },
                p_out := F.fin { num := 6, den := 1 },
                p_in := F.fin { num := 6, den := 1 },
                p_diss := F.fin { num := 0, den := 1 },
                p_iq := F.fin { num := 0, den := 1 },
                p_tot := F.fin { num := 0, den := 1 },
                i_in := F.fin { num := 1, den := 2 },
                load_current := F.fin { num := 0, den := 1 },
                errors := [] },
     pos := ({ num := 0, den := 1 }, { num := 0, den := 1 }) },
   { stage := { id := "b",
                stage_type := "LDO",
                name := "Stage",
                ic_name := "",
                vin_min := F.fin { num := 0, den := 1 },
                vin_max := F.fin { num := 20, den := 1 },
                vin_nom := F.fin { num := 12, den := 1 },
                vout := F.fin { num := 5, den := 1 },
                iout_user := F.fin { num := 1, den := 2 },
                iout_max_ic := F.fin { num := 1, den := 1 },
                efficiency_user := F.fin { num := 9, den := 10 },
                iq := F.fin { num := 0, den := 1 },
                notes := "",
                upstream := some "a",
                color := "ffffff",
                vin_effective := F.fin { num := 12, den := 1 },
                eff_effective := F.fin { num := 5, den := 12 },
                p_out := F.fin { num := 5, den := 2 },
                p_in := F.fin { num := 6, den := 1 },
                p_diss := F.fin { num := 7, den := 2 },
                p_iq := F.fin { num := 0, den := 1 },
                p_tot := F.fin { num := 7, den := 2 },
                i_in := F.fin { num := 1, den := 2 },
                load_current := F.fin { num := 0, den := 1 },
                errors := [] },
     pos := ({ num := 0, den := 1 }, { num := 0, den := 1 }) },
   { stage := { id := "c",
                stage_type := "LOAD",
                name := "Stage",
                ic_name := "",
                vin_min := F.fin { num := 0, den := 1 },
                vin_max := F.fin { num := 20, den := 1 },
                vin_nom := F.fin { num := 5, den := 1 },
                vout := F.fin { num := 5, den := 1 },
                iout_user := F.fin { num := 1, den := 2 },
                iout_max_ic := F.fin { num := 1, den := 1 },
                efficiency_user := F.fin { num := 9, den := 10 },
                iq := F.fin { num := 0, den := 1 },
                notes := "",
                upstream := some "b",
                color := "ffffff",
                vin_effective := F.fin { num := 5, den := 1 },
                eff_effective := F.fin { num := 1, den := 1 },
                p_out := F.fin { num := 5, den := 2 },
                p_in := F.fin { num := 5, den := 2 },
                p_diss := F.fin { num := 0, den := 1 },
                p_iq := F.fin { num := 0, den := 1 },
                p_tot := F.fin { num := 0, den := 1 },
                i_in := F.fin { num := 1, den := 2 },
                load_current := F.fin { num := 1, den := 2 },
                errors := [] },
     pos := ({ num := 0, den := 1 }, { num := 0, den := 1 }) }]

/-- A converged single-SOURCE scene: `onePass` maps it to itself. -/
def wfixScene : PowerScene :=
  { nodes := [⟨{ id := "s", stage_type := "INPUT", vin_effective := F.int 12 },
      (Q.ofInt 0, Q.ofInt 0)⟩],
    edges := [] }

/-- A document holding a single record whose own `upstream` key names a
node that no edge (and no record) backs. -/
def ghostDoc : Document :=
  { nodes := [{ stage := { id := "n", upstream := some (some "ghost") } }],
    edges := [] }

/-- Ids of the node records of a document, in document order. -/
def loadedIds (doc : Document) : List String :=
  doc.nodes.map (fun nd => nd.stage.id)

/-- Fold an edge list over an initial upstream value: every edge whose
destination is `i` and whose two endpoints lie in `ids` overrides the
current value with its source. -/
def overUp (ids : List String) (edges : List (String × String)) (i : String)
    (u0 : Option String) : Option String :=
  edges.foldl
    (fun cur e => if e.2 = i ∧ e.1 ∈ ids ∧ e.2 ∈ ids then some e.1 else cur) u0

/-- Reference description of the upstream pointer after `deserialize`:
start from the record's own `upstream` value (defaulting to `none` when
the key is missing), then let each edge of the document whose endpoints
are both loaded override it with its source. -/
def refUpstream (doc : Document) (i : String) (u0 : Option String) : Option String :=
  overUp (loadedIds doc) doc.edges i u0

theorem conf_compute (st : PowerStage) (uv : Option F) :
    (st.compute uv).conf = st.conf := by
  unfold PowerStage.compute
  dsimp only
  repeat' split
  all_goals rfl

theorem confs_updateStage (nodes : List NodeItem) (i : String)
    (f : PowerStage → PowerStage) (hf : ∀ st, (f st).conf = st.conf) :
    confs (updateStage nodes i f) = confs nodes := by
  unfold confs updateStage
  rw [List.map_map]
  apply List.map_congr_left
  intro n _
  by_cases h : n.stage.id == i
  · simp only [Function.comp_apply, h, if_true, hf]
  · simp only [Function.comp_apply, h, if_false]
    rfl

theorem confs_compute_requested_currents (nodes : List NodeItem) :
    confs (compute_requested_currents nodes) = confs nodes := by
  unfold compute_requested_currents
  refine List.foldlRecOn (motive := fun acc => confs acc = confs nodes) _ _ _ rfl ?_
  intro acc hacc n _
  rw [← hacc]
  apply confs_updateStage
  intro st
  split
  all_goals rfl

theorem confs_computeSweep (order : List String) (nodes : List NodeItem) :
    confs (computeSweep order nodes) = confs nodes := by
  unfold computeSweep
  refine List.foldlRecOn (motive := fun acc => confs acc = confs nodes) _ _ _ rfl ?_
  intro acc hacc i _
  rw [← hacc]
  split
  · rfl
  · apply confs_updateStage
    intro st
    exact conf_compute st _

theorem confs_supplyCheck (nodes : List NodeItem) :
    confs (supplyCheck nodes) = confs nodes := by
  unfold supplyCheck
  refine List.foldlRecOn (motive := fun acc => confs acc = confs nodes) _ _ _ rfl ?_
  intro acc hacc i _
  rw [← hacc]
  split
  · rfl
  · split
    · dsimp only
      split
      · apply confs_updateStage; intro st; rfl
      · split
        · apply confs_updateStage; intro st; rfl
        · rfl
    · rfl

theorem confs_onePass (nodes : List NodeItem) :
    confs (onePass nodes) = confs nodes := by
  unfold onePass
  rw [confs_supplyCheck, confs_computeSweep, confs_compute_requested_currents]

theorem confs_iterate_onePass (k : Nat) (nodes : List NodeItem) :
    confs (Nat.iterate onePass k nodes) = confs nodes := by
  induction k generalizing nodes with
  | zero => rfl
  | succ k ih =>
    rw [Function.iterate_succ_apply, ih, confs_onePass]

theorem confs_recompute_all (s : PowerScene) :
    confs (PowerScene.recompute_all s).nodes = confs s.nodes := by
  unfold PowerScene.recompute_all
  exact confs_iterate_onePass _ _

theorem edges_recompute_all (s : PowerScene) :
    (PowerScene.recompute_all s).edges = s.edges := rfl

theorem skeleton_eq_of_confs {n1 n2 : List NodeItem} (h : confs n1 = confs n2) :
    skeleton n1 = skeleton n2 := by
  have : skeleton n1 = (confs n1).map (fun p => (p.1.id, p.1.upstream)) := by
    unfold skeleton confs
    rw [List.map_map]
    rfl
  rw [this, h]
  unfold skeleton confs
  rw [List.map_map]
  rfl

theorem idsOf_eq_of_confs {n1 n2 : List NodeItem} (h : confs n1 = confs n2) :
    idsOf n1 = idsOf n2 := by
  have : idsOf n1 = (confs n1).map (fun p => p.1.id) := by
    unfold idsOf confs
    rw [List.map_map]
    rfl
  rw [this, h]
  unfold idsOf confs
  rw [List.map_map]
  rfl

theorem skeleton_recompute_all (s : PowerScene) :
    skeleton (PowerScene.recompute_all s).nodes = skeleton s.nodes :=
  skeleton_eq_of_confs (confs_recompute_all s)

theorem upListPath_toTransGen {nodes : List NodeItem} :
    ∀ {l a b}, UpListPath nodes a l b → Relation.TransGen (upRel nodes) a b := by
  intro l
  induction l with
  | nil => intro a b h; exact Relation.TransGen.single h
  | cons c l ih =>
    intro a b h
    exact Relation.TransGen.head h.1 (ih h.2)

theorem transGen_toPath {nodes : List NodeItem} {a b : String}
    (h : Relation.TransGen (upRel nodes) a b) : ∃ l, UpListPath nodes a l b := by
  induction h using Relation.TransGen.head_induction_on with
  | base h => exact ⟨[], h⟩
  | ih h _ ihh =>
    obtain ⟨l, hl⟩ := ihh
    exact ⟨_ :: l, h, hl⟩

theorem upListPath_append {nodes : List NodeItem} :
    ∀ {l₁ l₂ a b c}, UpListPath nodes a l₁ b → UpListPath nodes b l₂ c →
      UpListPath nodes a (l₁ ++ b :: l₂) c := by
  intro l₁
  induction l₁ with
  | nil => intro l₂ a b c h1 h2; exact ⟨h1, h2⟩
  | cons x l ih =>
    intro l₂ a b c h1 h2
    exact ⟨h1.1, ih h1.2 h2⟩

/-- A prefix path up to any member of the intermediate list. -/
theorem upListPath_prefix {nodes : List NodeItem} :
    ∀ {l a b x}, UpListPath nodes a l b → x ∈ l → ∃ l₁, UpListPath nodes a l₁ x := by
  intro l
  induction l with
  | nil => intro a b x _ hx; cases hx
  | cons c l ih =>
    intro a b x h hx
    rcases List.mem_cons.mp hx with h1 | h1
    · exact ⟨[], h1 ▸ h.1⟩
    · obtain ⟨l₁, hl₁⟩ := ih h.2 h1
      exact ⟨c :: l₁, h.1, hl₁⟩

/-- A suffix path from any member of the intermediate list. -/
theorem upListPath_suffix {nodes : List NodeItem} :
    ∀ {l a b x}, UpListPath nodes a l b → x ∈ l → ∃ l₂, UpListPath nodes x l₂ b := by
  intro l
  induction l with
  | nil => intro a b x _ hx; cases hx
  | cons c l ih =>
    intro a b x h hx
    rcases List.mem_cons.mp hx with h1 | h1
    · exact ⟨l, h1 ▸ h.2⟩
    · exact ih h.2 h1

/-- Under acyclicity every explicit upstream path is duplicate-free,
endpoints included. -/
theorem upListPath_nodup {nodes : List NodeItem} (hA : AcyclicNodes nodes) :
    ∀ {l a b}, UpListPath nodes a l b → (a :: (l ++ [b])).Nodup := by
  intro l
  induction l with
  | nil =>
    intro a b h
    have hab : a ≠ b := by
      intro he
      exact hA a (Relation.TransGen.single (he ▸ h))
    simp [hab]
  | cons c l ih =>
    intro a b h
    have htail := ih h.2
    refine List.nodup_cons.mpr ⟨?_, htail⟩
    intro hmem
    rcases List.mem_cons.mp hmem with h1 | h1
    · exact hA a (Relation.TransGen.single (h1 ▸ h.1))
    rcases List.mem_append.mp h1 with h2 | h2
    · obtain ⟨l₁, hl₁⟩ := upListPath_prefix h.2 h2
      exact hA a (Relation.TransGen.head h.1 (upListPath_toTransGen hl₁))
    · have hb : a = b := by simpa using h2
      subst hb
      exact hA a (upListPath_toTransGen (show UpListPath nodes a (c :: l) a from h))

/-- Every id with an outgoing upstream step is a stored id. -/
theorem upRel_mem_ids {nodes : List NodeItem} {a b : String}
    (h : upRel nodes a b) : a ∈ idsOf nodes := by
  obtain ⟨n, hn, he⟩ := List.mem_map.mp h
  exact List.mem_map.mpr ⟨n, hn, congrArg Prod.fst he⟩

/-- Every intermediate id of a path, and its head, is a stored id. -/
theorem upListPath_mem_ids {nodes : List NodeItem} :
    ∀ {l a b}, UpListPath nodes a l b → ∀ x ∈ a :: l, x ∈ idsOf nodes := by
  intro l
  induction l with
  | nil =>
    intro a b h x hx
    rcases List.mem_cons.mp hx with h1 | h1
    · exact h1 ▸ upRel_mem_ids h
    · cases h1
  | cons c l ih =>
    intro a b h x hx
    rcases List.mem_cons.mp hx with h1 | h1
    · exact h1 ▸ upRel_mem_ids h.1
    · exact ih h.2 x h1

theorem nodesGet_some {nodes : List NodeItem} {i : String} {n : NodeItem}
    (h : nodesGet nodes i = some n) : n ∈ nodes ∧ n.stage.id = i := by
  refine ⟨List.mem_of_find?_eq_some h, ?_⟩
  have := List.find?_some h
  simpa using this

theorem nodesGet_of_mem {nodes : List NodeItem} (hnd : (idsOf nodes).Nodup)
    {n : NodeItem} (hn : n ∈ nodes) : nodesGet nodes n.stage.id = some n := by
  induction nodes with
  | nil => cases hn
  | cons m rest ih =>
    simp only [idsOf, List.map_cons, List.nodup_cons] at hnd
    rcases List.mem_cons.mp hn with h1 | h1
    · subst h1
      unfold nodesGet
      simp [List.find?]
    · unfold nodesGet
      rw [List.find?]
      have hne : (m.stage.id == n.stage.id) = false := by
        simp only [beq_eq_false_iff_ne, ne_eq]
        intro he
        apply hnd.1
        rw [he]
        exact List.mem_map.mpr ⟨n, h1, rfl⟩
      rw [hne]
      exact ih hnd.2 h1

/-- Under unique ids, the upstream successor of an id is unique and is
what the executable chain walk reads. -/
theorem upRel_step_eq {nodes : List NodeItem} (hnd : (idsOf nodes).Nodup)
    {x y : String} (h : upRel nodes x y) :
    (nodesGet nodes x).bind (fun n => n.stage.upstream) = some y := by
  obtain ⟨n, hn, he⟩ := List.mem_map.mp h
  have h1 : n.stage.id = x := congrArg Prod.fst he
  have h2 : n.stage.upstream = some y := congrArg Prod.snd he
  rw [← h1, nodesGet_of_mem hnd hn]
  simpa using h2

theorem chainReaches_of_path {nodes : List NodeItem} (hnd : (idsOf nodes).Nodup) :
    ∀ {l b c fuel}, UpListPath nodes b l c → l.length + 1 ≤ fuel →
      chainReaches nodes fuel b c = true := by
  intro l
  induction l with
  | nil =>
    intro b c fuel h hf
    obtain ⟨k, rfl⟩ : ∃ k, fuel = k + 1 := ⟨fuel - 1, by omega⟩
    simp only [chainReaches, upRel_step_eq hnd h]
    simp
  | cons d l ih =>
    intro b c fuel h hf
    obtain ⟨k, rfl⟩ : ∃ k, fuel = k + 1 := ⟨fuel - 1, by omega⟩
    simp only [chainReaches, upRel_step_eq hnd h.1]
    have hr : chainReaches nodes k d c = true := by
      apply ih h.2
      simp only [List.length_cons] at hf
      omega
    simp [hr]

theorem chainReaches_toTransGen {nodes : List NodeItem} :
    ∀ {fuel cur target}, chainReaches nodes fuel cur target = true →
      Relation.TransGen (upRel nodes) cur target := by
  intro fuel
  induction fuel with
  | zero => intro cur target h; simp [chainReaches] at h
  | succ k ih =>
    intro cur target h
    unfold chainReaches at h
    revert h
    split
    · intro h; cases h
    · next u heq =>
      intro h
      have hrel : upRel nodes cur u := by
        rcases ho : nodesGet nodes cur with _ | n
        · rw [ho] at heq; cases heq
        · rw [ho] at heq
          simp only [Option.some_bind] at heq
          obtain ⟨hn, hid⟩ := nodesGet_some ho
          exact List.mem_map.mpr ⟨n, hn, by rw [hid, heq]⟩
      by_cases hut : u = target
      · exact Relation.TransGen.single (hut ▸ hrel)
      · have h1 : chainReaches nodes k u target = true := by
          have hbe : (u == target) = false := beq_eq_false_iff_ne.mpr hut
          rw [hbe] at h
          simpa using h
        exact Relation.TransGen.head hrel (ih h1)

/-- Decomposing a duplicated element: some element occurs once and then
again in the remainder. -/
theorem exists_dup_split {α : Type} :
    ∀ {l : List α}, ¬ l.Nodup → ∃ x l₁ m, l = l₁ ++ x :: m ∧ x ∈ m := by
  intro l
  induction l with
  | nil => intro h; exact absurd List.nodup_nil h
  | cons c t ih =>
    intro h
    by_cases hc : c ∈ t
    · exact ⟨c, [], t, rfl, hc⟩
    · have : ¬ t.Nodup := fun hnd => h (List.nodup_cons.mpr ⟨hc, hnd⟩)
      obtain ⟨x, l₁, m, he, hx⟩ := ih this
      exact ⟨x, c :: l₁, m, by rw [he]; rfl, hx⟩

theorem upListPath_drop {nodes : List NodeItem} :
    ∀ {l₁ a b x rest}, UpListPath nodes a (l₁ ++ x :: rest) b →
      UpListPath nodes x rest b := by
  intro l₁
  induction l₁ with
  | nil => intro a b x rest h; exact h.2
  | cons c t ih => intro a b x rest h; exact ih h.2

theorem upListPath_take {nodes : List NodeItem} :
    ∀ {l₂ y x l₃ b}, UpListPath nodes y (l₂ ++ x :: l₃) b →
      UpListPath nodes y l₂ x := by
  intro l₂
  induction l₂ with
  | nil => intro y x l₃ b h; exact h.1
  | cons c t ih => intro y x l₃ b h; exact ⟨h.1, ih h.2⟩

/-- Any cycle contains a duplicate-free cycle. -/
theorem cycle_shorten {nodes : List NodeItem} :
    ∀ (N : Nat) {l a}, l.length ≤ N → UpListPath nodes a l a →
      ∃ b l', UpListPath nodes b l' b ∧ (b :: l').Nodup := by
  intro N
  induction N with
  | zero =>
    intro l a hl h
    have : l = [] := List.length_eq_zero.mp (Nat.le_zero.mp hl)
    subst this
    exact ⟨a, [], h, List.nodup_singleton a⟩
  | succ N ih =>
    intro l a hl h
    by_cases hnd : (a :: l).Nodup
    · exact ⟨a, l, h, hnd⟩
    by_cases ha : a ∈ l
    · obtain ⟨s, t, rfl⟩ := List.append_of_mem ha
      have hpath : UpListPath nodes a s a := upListPath_take h
      have hlen : s.length ≤ N := by
        rw [List.length_append, List.length_cons] at hl
        omega
      exact ih hlen hpath
    · have hln : ¬ l.Nodup := by
        intro hn
        exact hnd (List.nodup_cons.mpr ⟨ha, hn⟩)
      obtain ⟨x, l₁, m, rfl, hx⟩ := exists_dup_split hln
      have h1 : UpListPath nodes x m a := upListPath_drop h
      obtain ⟨m₁, m₂, rfl⟩ := List.append_of_mem hx
      have h2 : UpListPath nodes x m₁ x := upListPath_take h1
      have hlen : m₁.length ≤ N := by
        rw [List.length_append, List.length_cons, List.length_append,
          List.length_cons] at hl
        omega
      exact ih hlen h2

theorem acyclicB_iff {nodes : List NodeItem} (h : WFNodes nodes) :
    acyclicB nodes = true ↔ AcyclicNodes nodes := by
  constructor
  · intro hck a hcyc
    obtain ⟨l, hl⟩ := transGen_toPath hcyc
    obtain ⟨b, l', hpath, hnd⟩ := cycle_shorten l.length (Nat.le_refl _) hl
    have hsub : ∀ x ∈ b :: l', x ∈ idsOf nodes := upListPath_mem_ids hpath
    have hb : b ∈ idsOf nodes := hsub b (List.mem_cons_self b l')
    obtain ⟨n, hn, hnid⟩ := List.mem_map.mp hb
    have hlen : (b :: l').length ≤ nodes.length := by
      have hsp : List.Subperm (b :: l') (idsOf nodes) :=
        List.subperm_of_subset hnd (fun x hx => hsub x hx)
      have := hsp.length_le
      simpa [idsOf] using this
    have hreach : chainReaches nodes nodes.length b b = true :=
      chainReaches_of_path h.1 hpath (by simpa using hlen)
    have := List.all_eq_true.mp hck n hn
    rw [hnid] at this
    simp [hreach] at this
  · intro hA
    apply List.all_eq_true.mpr
    intro n hn
    rw [Bool.not_eq_true']
    by_contra hne
    have : chainReaches nodes nodes.length n.stage.id n.stage.id = true := by
      revert hne
      cases chainReaches nodes nodes.length n.stage.id n.stage.id
      · intro hne; exact absurd rfl hne
      · intro _; rfl
    exact hA n.stage.id (chainReaches_toTransGen this)

theorem contains_eq_false_of_not_mem {l : List String} {x : String} (h : x ∉ l) :
    l.contains x = false := by
  induction l with
  | nil => rfl
  | cons a t ih =>
    simp only [List.mem_cons, not_or] at h
    have hne : (x == a) = false := beq_eq_false_iff_ne.mpr h.1
    show List.elem x (a :: t) = false
    rw [List.elem, hne]
    exact ih h.2

/-- Distinct stored nodes have distinct ids under `WFNodes`. -/
theorem id_inj {nodes : List NodeItem} (hnd : (idsOf nodes).Nodup)
    {n m : NodeItem} (hn : n ∈ nodes) (hm : m ∈ nodes)
    (h : n.stage.id = m.stage.id) : n = m := by
  have h1 := nodesGet_of_mem hnd hn
  have h2 := nodesGet_of_mem hnd hm
  rw [h] at h1
  rw [h1] at h2
  exact Option.some_inj.mp h2

theorem mem_idsOf_ne_empty {nodes : List NodeItem} (hwf : WFNodes nodes)
    {x : String} (hx : x ∈ idsOf nodes) : x ≠ "" := by
  obtain ⟨n, hn, rfl⟩ := List.mem_map.mp hx
  exact hwf.2 n hn

theorem mem_idsOf_get {nodes : List NodeItem} (hnd : (idsOf nodes).Nodup)
    {x : String} (hx : x ∈ idsOf nodes) : ∃ n, nodesGet nodes x = some n ∧ n.stage.id = x := by
  obtain ⟨n, hn, rfl⟩ := List.mem_map.mp hx
  exact ⟨n, nodesGet_of_mem hnd hn, rfl⟩

/-- The unique out-step under `WFNodes`: the stored node with id `a` has
`upstream = some b` whenever `upRel nodes a b`. -/
theorem upRel_upstream_eq {nodes : List NodeItem} (hnd : (idsOf nodes).Nodup)
    {a b : String} (h : upRel nodes a b) {n : NodeItem}
    (hg : nodesGet nodes a = some n) : n.stage.upstream = some b := by
  obtain ⟨m, hm, he⟩ := List.mem_map.mp h
  have h1 : m.stage.id = a := congrArg Prod.fst he
  have h2 : m.stage.upstream = some b := congrArg Prod.snd he
  obtain ⟨hn, hid⟩ := nodesGet_some hg
  have : m = n := id_inj hnd hm hn (by rw [h1, hid])
  rw [← this]
  exact h2

/-- The `_creates_cycle` walk finds every strict ancestor: if the
upstream chain from `src` reaches `dst`, the walk returns true.  The
statement is generalised over the walk state for the induction. -/
theorem walkAux_finds {nodes : List NodeItem} (hwf : WFNodes nodes) :
    ∀ {l a b} (node_a : NodeItem), UpListPath nodes a l b →
      nodesGet nodes a = some node_a →
      b ∈ idsOf nodes →
      ∀ visited fuel, (∀ x ∈ l ++ [b], x ∉ visited) →
      (a :: (l ++ [b])).Nodup →
      l.length + 1 ≤ fuel →
      walkAux nodes b fuel visited node_a = true := by
  intro l
  induction l with
  | nil =>
    intro a b node_a hpath hget hbmem visited fuel hvis hnd hfuel
    obtain ⟨k, rfl⟩ : ∃ k, fuel = k + 1 := ⟨fuel - 1, by omega⟩
    have hup : node_a.stage.upstream = some b := upRel_upstream_eq hwf.1 hpath hget
    have hbne : b ≠ "" := mem_idsOf_ne_empty hwf hbmem
    obtain ⟨nb, hnb, hnbid⟩ := mem_idsOf_get hwf.1 hbmem
    unfold walkAux
    rw [hup]
    have ht : upstreamTruthy (some b) = true := by
      simp [upstreamTruthy, hbne]
    rw [ht]
    simp only [if_true, Option.getD_some]
    have hnv : visited.contains b = false :=
      contains_eq_false_of_not_mem (hvis b (by simp))
    rw [hnv]
    simp only [Bool.false_eq_true, if_false, hnb]
    rw [if_pos (by simp [hnbid])]
  | cons c l ih =>
    intro a b node_a hpath hget hbmem visited fuel hvis hnd hfuel
    obtain ⟨k, rfl⟩ : ∃ k, fuel = k + 1 := ⟨fuel - 1, by omega⟩
    have hup : node_a.stage.upstream = some c := upRel_upstream_eq hwf.1 hpath.1 hget
    have hcmem : c ∈ idsOf nodes := upListPath_mem_ids hpath.2 c (by simp)
    have hcne : c ≠ "" := mem_idsOf_ne_empty hwf hcmem
    obtain ⟨nc, hnc, hncid⟩ := mem_idsOf_get hwf.1 hcmem
    unfold walkAux
    rw [hup]
    have ht : upstreamTruthy (some c) = true := by
      simp [upstreamTruthy, hcne]
    rw [ht]
    simp only [if_true, Option.getD_some]
    have hnv : visited.contains c = false :=
      contains_eq_false_of_not_mem (hvis c (by simp))
    rw [hnv]
    simp only [Bool.false_eq_true, if_false, hnc]
    have hnd' : a ∉ c :: (l ++ [b]) ∧ c ∉ l ++ [b] ∧ (l ++ [b]).Nodup := by
      simpa only [List.cons_append, List.nodup_cons] using hnd
    have hcb : c ≠ b := by
      intro he
      exact hnd'.2.1 (by rw [he]; simp)
    rw [if_neg (by simp [hncid, hcb])]
    apply ih nc hpath.2 hnc hbmem
    · intro x hx
      simp only [List.mem_cons]
      push_neg
      refine ⟨?_, hvis x (by simp [hx])⟩
      intro he
      subst he
      exact hnd'.2.1 hx
    · exact List.nodup_cons.mpr ⟨hnd'.2.1, hnd'.2.2⟩
    · simp only [List.length_cons] at hfuel
      omega

/-- Transitive closure of a relation extended by the single pair
`(c, d)`: a closed walk decomposes into an old walk or passes through
the new pair. -/
theorem transGen_absorb {α : Type} {r r' : α → α → Prop} {c d : α}
    (hstep : ∀ a b, r' a b → r a b ∨ (a = c ∧ b = d)) :
    ∀ {x y}, Relation.TransGen r' x y →
      Relation.TransGen r x y ∨
        (Relation.ReflTransGen r x c ∧ Relation.ReflTransGen r d y) := by
  intro x y h
  induction h with
  | single h1 =>
    rcases hstep _ _ h1 with h2 | ⟨he1, he2⟩
    · exact Or.inl (Relation.TransGen.single h2)
    · subst he1; subst he2
      exact Or.inr ⟨Relation.ReflTransGen.refl, Relation.ReflTransGen.refl⟩
  | tail _ hyz ih =>
    rcases hstep _ _ hyz with h2 | ⟨he1, he2⟩
    · rcases ih with ih1 | ⟨ih1, ih2⟩
      · exact Or.inl (ih1.tail h2)
      · exact Or.inr ⟨ih1, ih2.tail h2⟩
    · subst he1; subst he2
      rcases ih with ih1 | ⟨ih1, ih2⟩
      · exact Or.inr ⟨ih1.to_reflTransGen, Relation.ReflTransGen.refl⟩
      · exact Or.inr ⟨ih1, Relation.ReflTransGen.refl⟩

/-- A step of the upstream relation after `add_edge` writes
`dst.upstream := src` is an old step or exactly the new pair. -/
theorem upRel_after_set {nodes : List NodeItem} {dstId srcId : String} :
    ∀ a b, upRel (updateStage nodes dstId
        (fun st => { st with upstream := some srcId })) a b →
      upRel nodes a b ∨ (a = dstId ∧ b = srcId) := by
  intro a b h
  obtain ⟨n, hn, he⟩ := List.mem_map.mp h
  rcases List.mem_map.mp hn with ⟨m, hm, hme⟩
  by_cases hc : m.stage.id == dstId
  · rw [if_pos hc] at hme
    subst hme
    have h1 : m.stage.id = a := congrArg Prod.fst he
    have h2 : some srcId = some b := congrArg Prod.snd he
    right
    refine ⟨?_, (Option.some_inj.mp h2).symm⟩
    rw [← h1]
    exact (eq_of_beq hc).symm ▸ rfl
  · rw [if_neg (by simpa using hc)] at hme
    subst hme
    left
    exact List.mem_map.mpr ⟨m, hm, he⟩

theorem wf_ids {nodes : List NodeItem} :
    WFNodes nodes ↔ ((idsOf nodes).Nodup ∧ ∀ x ∈ idsOf nodes, x ≠ "") := by
  unfold WFNodes
  constructor
  · intro h
    refine ⟨h.1, ?_⟩
    intro x hx
    obtain ⟨n, hn, rfl⟩ := List.mem_map.mp hx
    exact h.2 n hn
  · intro h
    exact ⟨h.1, fun n hn => h.2 _ (List.mem_map.mpr ⟨n, hn, rfl⟩)⟩

theorem idsOf_updateStage (nodes : List NodeItem) (i : String)
    (f : PowerStage → PowerStage) (hf : ∀ st, (f st).id = st.id) :
    idsOf (updateStage nodes i f) = idsOf nodes := by
  unfold idsOf updateStage
  rw [List.map_map]
  apply List.map_congr_left
  intro n _
  by_cases h : n.stage.id == i
  · simp only [Function.comp_apply, h, if_true, hf]
  · simp only [Function.comp_apply, h, if_false]
    rfl

theorem upRel_eq_of_skeleton {n1 n2 : List NodeItem}
    (h : skeleton n1 = skeleton n2) : upRel n1 = upRel n2 := by
  funext a b
  unfold upRel
  rw [h]

theorem acyclic_of_skeleton {n1 n2 : List NodeItem}
    (h : skeleton n1 = skeleton n2) (hA : AcyclicNodes n1) : AcyclicNodes n2 := by
  unfold AcyclicNodes
  rw [← upRel_eq_of_skeleton h]
  exact hA

/-- `_creates_cycle` is complete: whenever `dst` is a strict ancestor of
`src`, the walk reports it (on well-formed acyclic scenes). -/
theorem creates_cycle_complete {s : PowerScene} (hwf : WFNodes s.nodes)
    (hA : AcyclicNodes s.nodes) {src dst : NodeItem}
    (hsrc : nodesGet s.nodes src.stage.id = some src)
    (hdst : dst ∈ s.nodes)
    (h : Relation.TransGen (upRel s.nodes) src.stage.id dst.stage.id) :
    s.creates_cycle src dst = true := by
  obtain ⟨l, hl⟩ := transGen_toPath h
  have hnd := upListPath_nodup hA hl
  have hndpre : (src.stage.id :: l).Nodup := by
    have hsub : List.Sublist (src.stage.id :: l) (src.stage.id :: (l ++ [dst.stage.id])) :=
      List.Sublist.cons₂ _ (List.sublist_append_left l [dst.stage.id])
    exact List.Nodup.sublist hsub hnd
  have hmem : ∀ x ∈ src.stage.id :: l, x ∈ idsOf s.nodes := upListPath_mem_ids hl
  have hlen : (src.stage.id :: l).length ≤ s.nodes.length := by
    have hsp : List.Subperm (src.stage.id :: l) (idsOf s.nodes) :=
      List.subperm_of_subset hndpre (fun x hx => hmem x hx)
    have := hsp.length_le
    simpa [idsOf] using this
  unfold PowerScene.creates_cycle
  apply walkAux_finds hwf src hl hsrc (List.mem_map.mpr ⟨dst, hdst, rfl⟩)
  · intro x _ hx
    cases hx
  · exact hnd
  · simp only [List.length_cons] at hlen
    omega

/-- Core preservation property of `add_edge`: well-formedness and
acyclicity survive any call, and a non-successful call returns the
scene untouched. -/
theorem add_edge_preserves (s : PowerScene) (hwf : WFNodes s.nodes)
    (hA : AcyclicNodes s.nodes) (srcId dstId : String) :
    WFNodes (s.add_edge srcId dstId).1.nodes ∧
    AcyclicNodes (s.add_edge srcId dstId).1.nodes ∧
    ((s.add_edge srcId dstId).2 ≠ AddEdgeResult.ok → (s.add_edge srcId dstId).1 = s) := by
  unfold PowerScene.add_edge
  cases hs : nodesGet s.nodes srcId with
  | none => exact ⟨hwf, hA, fun _ => rfl⟩
  | some src =>
  cases hd : nodesGet s.nodes dstId with
  | none => exact ⟨hwf, hA, fun _ => rfl⟩
  | some dst =>
  dsimp only
  obtain ⟨hsrcm, hsrcid⟩ := nodesGet_some hs
  obtain ⟨hdstm, hdstid⟩ := nodesGet_some hd
  by_cases h1 : dst.stage.upstream.isSome
  · rw [if_pos h1]
    exact ⟨hwf, hA, fun _ => rfl⟩
  rw [if_neg h1]
  by_cases h2 : src.stage.id = dst.stage.id
  · rw [if_pos h2]
    exact ⟨hwf, hA, fun _ => rfl⟩
  rw [if_neg h2]
  by_cases h3 : s.creates_cycle src dst = true
  · rw [if_pos h3]
    exact ⟨hwf, hA, fun _ => rfl⟩
  rw [if_neg h3]
  simp only
  set nodes' := updateStage s.nodes dst.stage.id
    (fun st => { st with upstream := some src.stage.id }) with hn'
  have hids : idsOf nodes' = idsOf s.nodes :=
    idsOf_updateStage _ _ _ (fun st => rfl)
  have hwf' : WFNodes nodes' := by
    rw [wf_ids, hids]
    exact wf_ids.mp hwf
  have hA' : AcyclicNodes nodes' := by
    intro z hz
    rcases transGen_absorb
      (@upRel_after_set s.nodes dst.stage.id src.stage.id) hz with hc | ⟨hc1, hc2⟩
    · exact hA z hc
    · have hrt : Relation.ReflTransGen (upRel s.nodes) src.stage.id dst.stage.id :=
        Relation.ReflTransGen.trans hc2 hc1
      rcases (Relation.reflTransGen_iff_eq_or_transGen.mp hrt) with he | ht
      · exact h2 he.symm
      · rw [← hsrcid] at hs
        exact h3 (creates_cycle_complete hwf hA hs hdstm ht)
  have hskel : skeleton (PowerScene.recompute_all
      { nodes := nodes', edges := s.edges ++ [(src.stage.id, dst.stage.id)] }).nodes =
      skeleton nodes' :=
    skeleton_recompute_all _
  refine ⟨?_, ?_, ?_⟩
  · rw [wf_ids]
    rw [show idsOf (PowerScene.recompute_all
        { nodes := nodes', edges := s.edges ++ [(src.stage.id, dst.stage.id)] }).nodes =
        idsOf nodes' from idsOf_eq_of_confs (confs_recompute_all _), hids]
    exact wf_ids.mp hwf
  · exact acyclic_of_skeleton hskel.symm hA'
  · intro hne
    exact absurd rfl hne

theorem initIncoming_fold (l : List NodeItem) :
    ∀ (g : String → Int) (i : String),
      (l.foldl
        (fun inc n =>
          if upstreamTruthy n.stage.upstream then
            fun j => if j == n.stage.id then inc j + 1 else inc j
          else inc)
        g) i =
      g i + (l.filter (fun n =>
        upstreamTruthy n.stage.upstream && (n.stage.id == i))).length := by
  induction l with
  | nil => intro g i; simp
  | cons n rest ih =>
    intro g i
    simp only [List.foldl_cons, List.filter_cons]
    rw [ih]
    cases ht : upstreamTruthy n.stage.upstream with
    | false => simp [ht]
    | true =>
      cases hi : (n.stage.id == i) with
      | false =>
        have hi' : (i == n.stage.id) = false := by
          rw [beq_eq_false_iff_ne] at hi ⊢
          exact fun he => hi he.symm
        simp [ht, hi, hi']
      | true =>
        have hi' : (i == n.stage.id) = true := by
          rw [beq_iff_eq] at hi ⊢
          exact hi.symm
        simp only [ht, hi, Bool.true_and, if_true, hi', List.length_cons]
        push_cast
        omega

theorem filter_id_singleton {nodes : List NodeItem} (hnd : (idsOf nodes).Nodup)
    {v : NodeItem} (hv : v ∈ nodes) :
    nodes.filter (fun n =>
        upstreamTruthy n.stage.upstream && (n.stage.id == v.stage.id)) =
      (if upstreamTruthy v.stage.upstream then [v] else []) := by
  induction nodes with
  | nil => cases hv
  | cons m rest ih =>
    simp only [idsOf, List.map_cons, List.nodup_cons] at hnd
    rcases List.mem_cons.mp hv with h1 | h1
    · subst h1
      have hrest : rest.filter (fun n =>
          upstreamTruthy n.stage.upstream && (n.stage.id == v.stage.id)) = [] := by
        apply List.filter_eq_nil_iff.mpr
        intro n hn hcond
        rw [Bool.and_eq_true] at hcond
        have he : n.stage.id = v.stage.id := beq_iff_eq.mp hcond.2
        exact hnd.1 (by rw [← he]; exact List.mem_map.mpr ⟨n, hn, rfl⟩)
      simp [List.filter_cons, hrest]
    · have hm : (upstreamTruthy m.stage.upstream && (m.stage.id == v.stage.id)) = false := by
        simp only [Bool.and_eq_false_iff]
        right
        rw [beq_eq_false_iff_ne]
        intro he
        exact hnd.1 (by rw [he]; exact List.mem_map.mpr ⟨v, h1, rfl⟩)
      simp only [List.filter_cons, hm, Bool.false_eq_true, if_false]
      exact ih hnd.2 h1

/-- The in-degree table built by the source: on well-formed stores every
node's entry is 1 when its upstream is truthy, else 0. -/
theorem initIncoming_eq {nodes : List NodeItem} (hwf : WFNodes nodes)
    {v : NodeItem} (hv : v ∈ nodes) :
    initIncoming nodes v.stage.id =
      (if upstreamTruthy v.stage.upstream then 1 else 0) := by
  unfold initIncoming
  rw [initIncoming_fold, filter_id_singleton hwf.1 hv]
  cases ht : upstreamTruthy v.stage.upstream
  · simp
  · simp

/-- What one neighbour scan of Kahn's loop does when every matched node
has in-degree 1 and is unvisited: it decrements exactly the matched
ids and pushes exactly the matched nodes (in reverse scan order). -/
theorem procNeighbors_spec (curId : String) (visited : List String) :
    ∀ (scan : List NodeItem) (inc : String → Int) (stk : List NodeItem),
      ((scan.map (fun n => n.stage.id)).Nodup) →
      (∀ n ∈ scan, (n.stage.upstream == some curId) = true →
        inc n.stage.id = 1 ∧ n.stage.id ∉ visited) →
      (procNeighbors curId visited inc stk scan).2 =
          (scan.filter (fun n => n.stage.upstream == some curId)).reverse ++ stk ∧
      (∀ i : String,
        ((∃ n ∈ scan, n.stage.id = i ∧ (n.stage.upstream == some curId) = true) →
          (procNeighbors curId visited inc stk scan).1 i = inc i - 1) ∧
        ((∀ n ∈ scan, n.stage.id = i → (n.stage.upstream == some curId) = false) →
          (procNeighbors curId visited inc stk scan).1 i = inc i)) := by
  intro scan
  induction scan with
  | nil =>
    intro inc stk _ _
    refine ⟨rfl, ?_⟩
    intro i
    constructor
    · rintro ⟨n, hn, _⟩
      cases hn
    · intro _
      rfl
  | cons n rest ih =>
    intro inc stk hnd hm
    simp only [List.map_cons, List.nodup_cons] at hnd
    cases hmn : (n.stage.upstream == some curId) with
    | false =>
      have h0 : procNeighbors curId visited inc stk (n :: rest) =
          (if n.stage.upstream == some curId then
            (let inc' := fun i => if i == n.stage.id then inc i - 1 else inc i
             let stk' := if inc' n.stage.id == 0 && !(visited.contains n.stage.id) then
               n :: stk else stk
             procNeighbors curId visited inc' stk' rest)
          else procNeighbors curId visited inc stk rest) := rfl
      have step : procNeighbors curId visited inc stk (n :: rest) =
          procNeighbors curId visited inc stk rest := by
        rw [h0, hmn]
        simp only [Bool.false_eq_true, if_false]
      obtain ⟨ihstk, ihinc⟩ := ih inc stk hnd.2
        (fun m hmm hmc => hm m (List.mem_cons_of_mem n hmm) hmc)
      rw [step]
      refine ⟨?_, ?_⟩
      · rw [ihstk]
        simp [List.filter_cons, hmn]
      · intro i
        constructor
        · rintro ⟨n', hn', hid, hmc⟩
          rcases List.mem_cons.mp hn' with h1 | h1
          · subst h1
            rw [hmc] at hmn
            cases hmn
          · exact (ihinc i).1 ⟨n', h1, hid, hmc⟩
        · intro hall
          exact (ihinc i).2 (fun m hmm hid => hall m (List.mem_cons_of_mem n hmm) hid)
    | true =>
      have hm1 := hm n (List.mem_cons_self n rest) hmn
      have hpush : ((if (n.stage.id == n.stage.id) = true then
          inc n.stage.id - 1 else inc n.stage.id) == 0) = true := by
        simp [hm1.1]
      have hvis : visited.contains n.stage.id = false :=
        contains_eq_false_of_not_mem hm1.2
      have h0 : procNeighbors curId visited inc stk (n :: rest) =
          (if n.stage.upstream == some curId then
            (let inc' := fun i => if i == n.stage.id then inc i - 1 else inc i
             let stk' := if inc' n.stage.id == 0 && !(visited.contains n.stage.id) then
               n :: stk else stk
             procNeighbors curId visited inc' stk' rest)
          else procNeighbors curId visited inc stk rest) := rfl
      have step : procNeighbors curId visited inc stk (n :: rest) =
          procNeighbors curId visited
            (fun i => if i == n.stage.id then inc i - 1 else inc i) (n :: stk) rest := by
        rw [h0, hmn]
        simp only [if_true]
        dsimp only
        rw [hpush, hvis]
        simp
      set inc' := fun i => if i == n.stage.id then inc i - 1 else inc i with hinc'
      have hm' : ∀ m ∈ rest, (m.stage.upstream == some curId) = true →
          inc' m.stage.id = 1 ∧ m.stage.id ∉ visited := by
        intro m hmm hmc
        have hne : (m.stage.id == n.stage.id) = false := by
          rw [beq_eq_false_iff_ne]
          intro he
          exact hnd.1 (by rw [← he]; exact List.mem_map.mpr ⟨m, hmm, rfl⟩)
        have := hm m (List.mem_cons_of_mem n hmm) hmc
        refine ⟨?_, this.2⟩
        rw [hinc']
        simp only [hne, Bool.false_eq_true, if_false]
        exact this.1
      obtain ⟨ihstk, ihinc⟩ := ih inc' (n :: stk) hnd.2 hm'
      rw [step]
      refine ⟨?_, ?_⟩
      · rw [ihstk]
        simp [List.filter_cons, hmn, List.append_assoc]
      · intro i
        constructor
        · rintro ⟨n', hn', hid, hmc⟩
          rcases List.mem_cons.mp hn' with h1 | h1
          · subst h1
            subst hid
            have hnone : ∀ m ∈ rest, m.stage.id = n'.stage.id →
                (m.stage.upstream == some curId) = false := by
              intro m hmm hid2
              exact absurd (by rw [← hid2]; exact List.mem_map.mpr ⟨m, hmm, rfl⟩) hnd.1
            rw [(ihinc n'.stage.id).2 hnone]
            rw [hinc']
            simp
          · have hne : (n'.stage.id == n.stage.id) = false := by
              rw [beq_eq_false_iff_ne]
              intro he
              exact hnd.1 (by rw [← he]; exact List.mem_map.mpr ⟨n', h1, rfl⟩)
            subst hid
            rw [(ihinc n'.stage.id).1 ⟨n', h1, rfl, hmc⟩]
            rw [hinc']
            simp [hne]
        · intro hall
          have hni : n.stage.id ≠ i := by
            intro he
            have hc := hall n (List.mem_cons_self n rest) he
            rw [hmn] at hc
            cases hc
          rw [(ihinc i).2 (fun m hmm hid => hall m (List.mem_cons_of_mem n hmm) hid)]
          rw [hinc']
          have hne : (i == n.stage.id) = false := by
            rw [beq_eq_false_iff_ne]
            exact fun he => hni he.symm
          simp [hne]

theorem length_filter_split {α : Type} (l : List α) (p q : α → Bool) :
    (l.filter p).length =
      (l.filter (fun v => p v && q v)).length +
      (l.filter (fun v => p v && !q v)).length := by
  induction l with
  | nil => rfl
  | cons a t ih =>
    simp only [List.filter_cons]
    cases hp : p a
    · simpa using ih
    · cases hq : q a
      · simp only [hp, hq, Bool.true_and, Bool.not_false, Bool.and_true, if_true,
          Bool.false_eq_true, if_false, List.length_cons]
        omega
      · simp only [hp, hq, Bool.true_and, Bool.not_true, Bool.and_false, if_true,
          Bool.false_eq_true, if_false, List.length_cons]
        omega

theorem kahnLoop_post {nodes : List NodeItem} (hwf : WFNodes nodes) :
    ∀ (fuel : Nat) (inc : String → Int) (stk acc : List NodeItem),
      KahnInv nodes inc stk acc →
      stk.length + (nodes.filter (fun v =>
        !(decide (v ∈ stk) || decide (v ∈ acc)))).length < fuel →
      ∃ accF incF,
        kahnLoop nodes fuel inc stk (accIds acc) acc = accF.reverse ∧
        KahnInv nodes incF [] accF := by
  intro fuel
  induction fuel with
  | zero =>
    intro inc stk acc _ hm
    omega
  | succ fuel ih =>
    intro inc stk acc hinv hm
    cases stk with
    | nil => exact ⟨acc, inc, rfl, hinv⟩
    | cons cur rest =>
      obtain ⟨hstk, hacc, hnd, hinv3⟩ := hinv
      have hcur : cur ∈ nodes := hstk cur (List.mem_cons_self _ _)
      have hcid : cur.stage.id ≠ "" := hwf.2 cur hcur
      have hndc : cur.stage.id ∉ (rest ++ acc).map (fun n => n.stage.id) ∧
          ((rest ++ acc).map (fun n => n.stage.id)).Nodup := by
        have : ((cur :: rest) ++ acc).map (fun n => n.stage.id) =
            cur.stage.id :: (rest ++ acc).map (fun n => n.stage.id) := by simp
        rw [this] at hnd
        exact List.nodup_cons.mp hnd
      have hcurNotAcc : cur.stage.id ∉ accIds acc := by
        intro hmem
        apply hndc.1
        unfold accIds at hmem
        rw [List.map_append]
        exact List.mem_append_right _ hmem
      -- every child of cur is fresh with in-degree 1
      have hfresh : ∀ m ∈ nodes, (m.stage.upstream == some cur.stage.id) = true →
          m ∉ cur :: rest ∧ m ∉ acc ∧ inc m.stage.id = 1 := by
        intro m hmn hmc
        have hup : m.stage.upstream = some cur.stage.id := by
          rw [beq_iff_eq] at hmc
          exact hmc
        exact ((hinv3 m hmn).2 cur.stage.id hup hcid).2 hcurNotAcc
      have hmhyp : ∀ m ∈ nodes, (m.stage.upstream == some cur.stage.id) = true →
          inc m.stage.id = 1 ∧ m.stage.id ∉ accIds (cur :: acc) := by
        intro m hmn hmc
        obtain ⟨hm1, hm2, hm3⟩ := hfresh m hmn hmc
        refine ⟨hm3, ?_⟩
        intro hmem
        have hmem' : m.stage.id ∈ cur.stage.id :: accIds acc := hmem
        rcases List.mem_cons.mp hmem' with h1 | h1
        · have : m = cur := id_inj hwf.1 hmn hcur h1
          exact hm1 (by rw [this]; exact List.mem_cons_self _ _)
        · obtain ⟨w, hw, hwid⟩ := List.mem_map.mp h1
          have : w = m := id_inj hwf.1 (hacc w hw) hmn hwid
          exact hm2 (this ▸ hw)
      obtain ⟨hstk2, hinc2⟩ := procNeighbors_spec cur.stage.id (accIds (cur :: acc))
        nodes inc rest hwf.1 hmhyp
      set children := nodes.filter (fun n => n.stage.upstream == some cur.stage.id)
        with hchdef
      set r := procNeighbors cur.stage.id (accIds (cur :: acc)) inc rest nodes with hrdef
      have hchmem : ∀ c ∈ children, c ∈ nodes := by
        intro c hc
        rw [hchdef] at hc
        exact (List.mem_filter.mp hc).1
      have hchmatch : ∀ c ∈ children, (c.stage.upstream == some cur.stage.id) = true := by
        intro c hc
        rw [hchdef] at hc
        exact (List.mem_filter.mp hc).2
      have hchfresh : ∀ c ∈ children, c ∉ cur :: rest ∧ c ∉ acc ∧ inc c.stage.id = 1 :=
        fun c hc => hfresh c (hchmem c hc) (hchmatch c hc)
      -- the new state's Nodup property
      have hperm : List.Perm ((children.reverse ++ rest) ++ (cur :: acc))
          (children ++ ((cur :: rest) ++ acc)) := by
        rw [List.append_assoc]
        refine List.Perm.trans (List.Perm.append_right _ (List.reverse_perm children)) ?_
        exact List.Perm.append_left _ List.perm_middle
      have hnd2 : (((children.reverse ++ rest) ++ (cur :: acc)).map
          (fun n => n.stage.id)).Nodup := by
        rw [List.Perm.nodup_iff (List.Perm.map _ hperm)]
        rw [List.map_append, List.nodup_append]
        refine ⟨?_, hnd, ?_⟩
        · have : List.Sublist children nodes := List.filter_sublist nodes
          exact List.Nodup.sublist (List.Sublist.map _ this) hwf.1
        · intro x hx1 hx2
          obtain ⟨c, hc, rfl⟩ := List.mem_map.mp hx1
          obtain ⟨w, hw, hwid⟩ := List.mem_map.mp hx2
          have hcw : w = c := id_inj hwf.1
            (by rcases List.mem_append.mp hw with h | h
                · exact hstk w h
                · exact hacc w h) (hchmem c hc) hwid
          obtain ⟨hc1, hc2, _⟩ := hchfresh c hc
          rcases List.mem_append.mp hw with h | h
          · exact hc1 (hcw ▸ h)
          · exact hc2 (hcw ▸ h)
      -- new invariant
      have hinvN : KahnInv nodes r.1 (children.reverse ++ rest) (cur :: acc) := by
        refine ⟨?_, ?_, hnd2, ?_⟩
        · intro n hn
          rcases List.mem_append.mp hn with h | h
          · exact hchmem n (List.mem_reverse.mp h)
          · exact hstk n (List.mem_cons_of_mem _ h)
        · intro n hn
          rcases List.mem_cons.mp hn with h | h
          · exact h ▸ hcur
          · exact hacc n h
        · intro v hv
          have hvid_unmatched : (v.stage.upstream == some cur.stage.id) = false →
              r.1 v.stage.id = inc v.stage.id := by
            intro hum
            apply (hinc2 v.stage.id).2
            intro m hmn hmid
            have : m = v := id_inj hwf.1 hmn hv hmid
            rw [this]
            exact hum
          constructor
          · intro ht
            have hum : (v.stage.upstream == some cur.stage.id) = false := by
              cases hu : v.stage.upstream with
              | none => rfl
              | some u =>
                have : u = "" := by
                  unfold upstreamTruthy at ht
                  rw [hu] at ht
                  simpa using ht
                subst this
                simp only [beq_eq_false_iff_ne, ne_eq, Option.some.injEq]
                intro he
                exact hcid he.symm
            obtain ⟨hmem, hz⟩ := (hinv3 v hv).1 ht
            rw [hvid_unmatched hum]
            refine ⟨?_, hz⟩
            rcases hmem with h | h
            · rcases List.mem_cons.mp h with h1 | h1
              · exact Or.inr (h1 ▸ List.mem_cons_self _ _)
              · exact Or.inl (List.mem_append_right _ h1)
            · exact Or.inr (List.mem_cons_of_mem _ h)
          · intro u hu hune
            by_cases hucur : u = cur.stage.id
            · -- v is a child of cur: it was just pushed
              subst hucur
              have hmc : (v.stage.upstream == some cur.stage.id) = true := by
                rw [beq_iff_eq]
                exact hu
              have hvch : v ∈ children := by
                rw [hchdef]
                exact List.mem_filter.mpr ⟨hv, hmc⟩
              have hval : r.1 v.stage.id = inc v.stage.id - 1 :=
                (hinc2 v.stage.id).1 ⟨v, hv, rfl, hmc⟩
              obtain ⟨_, _, hone⟩ := hchfresh v hvch
              constructor
              · intro _
                refine ⟨Or.inl (List.mem_append_left _ (List.mem_reverse.mpr hvch)), ?_⟩
                rw [hval, hone]
                decide
              · intro hnot
                exact absurd (by
                  unfold accIds
                  exact List.mem_map.mpr ⟨cur, List.mem_cons_self _ _, rfl⟩) hnot
            · -- v's parent is not cur: nothing about v changed
              have hum : (v.stage.upstream == some cur.stage.id) = false := by
                rw [hu]
                simp only [beq_eq_false_iff_ne, ne_eq, Option.some.injEq]
                exact hucur
              have hval := hvid_unmatched hum
              have hmemiff : u ∈ accIds (cur :: acc) ↔ u ∈ accIds acc := by
                unfold accIds
                simp only [List.map_cons, List.mem_cons]
                constructor
                · intro h
                  rcases h with h | h
                  · exact absurd h hucur
                  · exact h
                · exact Or.inr
              constructor
              · intro hmem
                obtain ⟨hmem2, hz⟩ := ((hinv3 v hv).2 u hu hune).1 (hmemiff.mp hmem)
                rw [hval]
                refine ⟨?_, hz⟩
                rcases hmem2 with h | h
                · rcases List.mem_cons.mp h with h1 | h1
                  · exact Or.inr (h1 ▸ List.mem_cons_self _ _)
                  · exact Or.inl (List.mem_append_right _ h1)
                · exact Or.inr (List.mem_cons_of_mem _ h)
              · intro hnot
                obtain ⟨hs1, hs2, hone⟩ := ((hinv3 v hv).2 u hu hune).2
                  (fun hmem => hnot (hmemiff.mpr hmem))
                rw [hval]
                refine ⟨?_, ?_, hone⟩
                · intro hmem
                  rcases List.mem_append.mp hmem with h | h
                  · have hvch := List.mem_reverse.mp h
                    exact absurd (hchmatch v hvch) (by rw [hum]; intro hc; cases hc)
                  · exact hs1 (List.mem_cons_of_mem _ h)
                · intro hmem
                  rcases List.mem_cons.mp hmem with h | h
                  · exact hs1 (h ▸ List.mem_cons_self _ _)
                  · exact hs2 h
      -- the measure decreases
      have hmeasure : (children.reverse ++ rest).length +
          (nodes.filter (fun v =>
            !(decide (v ∈ children.reverse ++ rest) || decide (v ∈ cur :: acc)))).length
          < fuel := by
        have hcong1 : nodes.filter (fun v =>
            !(decide (v ∈ children.reverse ++ rest) || decide (v ∈ cur :: acc))) =
            nodes.filter (fun v =>
              (!(decide (v ∈ cur :: rest) || decide (v ∈ acc))) && !(decide (v ∈ children))) := by
          apply List.filter_congr
          intro v hv
          by_cases hvc : v ∈ children
          · obtain ⟨h1, h2, _⟩ := hchfresh v hvc
            simp [hvc, List.mem_reverse]
          · by_cases h1 : v ∈ cur :: rest
            · rcases List.mem_cons.mp h1 with h2 | h2
              · simp [h1, h2, hvc]
              · simp [h1, h2, hvc, List.mem_reverse]
            · by_cases h2 : v ∈ acc
              · simp [h1, h2, hvc]
              · have h3 : v ∉ children.reverse ++ rest := by
                  intro hmem
                  rcases List.mem_append.mp hmem with h | h
                  · exact hvc (List.mem_reverse.mp h)
                  · exact h1 (List.mem_cons_of_mem _ h)
                have h4 : v ∉ cur :: acc := by
                  intro hmem
                  rcases List.mem_cons.mp hmem with h | h
                  · exact h1 (h ▸ List.mem_cons_self _ _)
                  · exact h2 h
                simp [h1, h2, h3, h4, hvc]
        have hcong2 : nodes.filter (fun v =>
            (!(decide (v ∈ cur :: rest) || decide (v ∈ acc))) && decide (v ∈ children)) =
            children := by
          have hstep1 : nodes.filter (fun v =>
              (!(decide (v ∈ cur :: rest) || decide (v ∈ acc))) && decide (v ∈ children)) =
              nodes.filter (fun v => v.stage.upstream == some cur.stage.id) := by
            apply List.filter_congr
            intro v hv
            by_cases hvc : v ∈ children
            · obtain ⟨h1, h2, _⟩ := hchfresh v hvc
              have h3 := hchmatch v hvc
              simp [h1, h2, hvc, h3]
            · have hnm : (v.stage.upstream == some cur.stage.id) = false := by
                cases hb : (v.stage.upstream == some cur.stage.id)
                · rfl
                · exact absurd (List.mem_filter.mpr ⟨hv, hb⟩) hvc
              simp [hvc, hnm]
          rw [hstep1, hchdef]
        have hsplit := length_filter_split nodes
          (fun v => !(decide (v ∈ cur :: rest) || decide (v ∈ acc)))
          (fun v => decide (v ∈ children))
        rw [hcong1]
        rw [List.length_append, List.length_reverse]
        rw [hcong2] at hsplit
        simp only [List.length_cons] at hm
        omega
      obtain ⟨accF, incF, heq, hfin⟩ := ih r.1 (children.reverse ++ rest) (cur :: acc)
        hinvN hmeasure
      refine ⟨accF, incF, ?_, hfin⟩
      have hunf : kahnLoop nodes (fuel + 1) inc (cur :: rest) (accIds acc) acc =
          kahnLoop nodes fuel r.1 r.2 (accIds (cur :: acc)) (cur :: acc) := rfl
      rw [hunf, hstk2]
      exact heq

/-- At loop exit every node has been popped: an unpopped node would have
an unpopped parent, giving an infinite ascending chain in a finite
acyclic graph. -/
theorem kahnInv_final_complete {nodes : List NodeItem} (hwf : WFNodes nodes)
    (hval : UpValid nodes) (hA : AcyclicNodes nodes) {incF : String → Int}
    {accF : List NodeItem} (hfin : KahnInv nodes incF [] accF) :
    ∀ v ∈ nodes, v ∈ accF := by
  by_contra hc
  push_neg at hc
  obtain ⟨v₀, hv₀, hv₀n⟩ := hc
  have hstep : ∀ v ∈ nodes, v ∉ accF → ∃ p ∈ nodes, p ∉ accF ∧
      Relation.TransGen (upRel nodes) v.stage.id p.stage.id := by
    intro v hv hvn
    have hinvv := hfin.2.2.2 v hv
    cases htr : upstreamTruthy v.stage.upstream with
    | false =>
      obtain ⟨hmem, _⟩ := hinvv.1 htr
      rcases hmem with h | h
      · cases h
      · exact absurd h hvn
    | true =>
      obtain ⟨u, hu, hune⟩ : ∃ u, v.stage.upstream = some u ∧ u ≠ "" := by
        cases hup : v.stage.upstream with
        | none => rw [hup] at htr; cases htr
        | some u =>
          refine ⟨u, rfl, ?_⟩
          unfold upstreamTruthy at htr
          rw [hup] at htr
          simpa using htr
      have hspec := hinvv.2 u hu hune
      by_cases humem : u ∈ accIds accF
      · obtain ⟨hmem, _⟩ := hspec.1 humem
        rcases hmem with h | h
        · cases h
        · exact absurd h hvn
      · have huval := hval v hv u hu
        obtain ⟨p, hpget, hpid⟩ := mem_idsOf_get hwf.1 huval.2
        have hpm : p ∈ nodes := (nodesGet_some hpget).1
        have hpn : p ∉ accF := by
          intro hmem
          exact humem (by
            unfold accIds
            exact List.mem_map.mpr ⟨p, hmem, hpid⟩)
        refine ⟨p, hpm, hpn, Relation.TransGen.single ?_⟩
        rw [hpid]
        exact List.mem_map.mpr ⟨v, hv, by rw [hu]⟩
  haveI hfinite : Finite {n : NodeItem // n ∈ nodes} := by
    have := List.finite_toSet nodes
    exact this.to_subtype
  let R : {n : NodeItem // n ∈ nodes} → {n : NodeItem // n ∈ nodes} → Prop :=
    fun a b => Relation.TransGen (upRel nodes) b.val.stage.id a.val.stage.id
  haveI : IsTrans {n : NodeItem // n ∈ nodes} R :=
    ⟨fun _ _ _ h1 h2 => Relation.TransGen.trans h2 h1⟩
  haveI : IsIrrefl {n : NodeItem // n ∈ nodes} R :=
    ⟨fun a h => hA a.val.stage.id h⟩
  have hWF : WellFounded R := Finite.wellFounded_of_trans_of_irrefl R
  obtain ⟨m, hmS, hmin⟩ := hWF.has_min {a | a.val ∉ accF} ⟨⟨v₀, hv₀⟩, hv₀n⟩
  obtain ⟨p, hpm, hpn, htg⟩ := hstep m.val m.property hmS
  exact hmin ⟨p, hpm⟩ hpn htg

/-- Kahn's algorithm as implemented reaches every node of a well-formed
acyclic store. -/
theorem kahn_complete {nodes : List NodeItem} (hwf : WFNodes nodes)
    (hval : UpValid nodes) (hA : AcyclicNodes nodes) :
    ∀ v ∈ nodes, v ∈ kahnOrder nodes := by
  have hinv0 : KahnInv nodes (initIncoming nodes)
      ((nodes.filter (fun n => initIncoming nodes n.stage.id == 0)).reverse) [] := by
    refine ⟨?_, ?_, ?_, ?_⟩
    · intro n hn
      exact (List.mem_filter.mp (List.mem_reverse.mp hn)).1
    · intro n hn
      cases hn
    · rw [List.append_nil]
      rw [List.nodup_iff_count_le_one]
      intro x
      have : ((nodes.filter (fun n => initIncoming nodes n.stage.id == 0)).reverse).map
          (fun n => n.stage.id) =
          ((nodes.filter (fun n => initIncoming nodes n.stage.id == 0)).map
            (fun n => n.stage.id)).reverse := by
        rw [List.map_reverse]
      rw [this]
      have hsub : List.Sublist (nodes.filter (fun n => initIncoming nodes n.stage.id == 0))
          nodes := List.filter_sublist nodes
      have hnodup : ((nodes.filter (fun n => initIncoming nodes n.stage.id == 0)).map
          (fun n => n.stage.id)).Nodup :=
        List.Nodup.sublist (List.Sublist.map _ hsub) hwf.1
      rw [List.nodup_iff_count_le_one] at hnodup
      rw [List.count_reverse]
      exact hnodup x
    · intro v hv
      constructor
      · intro ht
        have hz : initIncoming nodes v.stage.id = 0 := by
          rw [initIncoming_eq hwf hv, ht]
          simp
        constructor
        · left
          rw [List.mem_reverse]
          exact List.mem_filter.mpr ⟨hv, by rw [hz]; rfl⟩
        · exact hz
      · intro u hu hune
        have ht : upstreamTruthy v.stage.upstream = true := by
          unfold upstreamTruthy
          rw [hu]
          simpa using hune
        have ho : initIncoming nodes v.stage.id = 1 := by
          rw [initIncoming_eq hwf hv, ht]
          simp
        constructor
        · intro hmem
          cases hmem
        · intro _
          refine ⟨?_, ?_, ho⟩
          · intro hmem
            have h2 := (List.mem_filter.mp (List.mem_reverse.mp hmem)).2
            rw [ho] at h2
            cases h2
          · intro hmem
            cases hmem
  have hmeas : ((nodes.filter (fun n => initIncoming nodes n.stage.id == 0)).reverse).length +
      (nodes.filter (fun v =>
        !(decide (v ∈ (nodes.filter (fun n => initIncoming nodes n.stage.id == 0)).reverse) ||
          decide (v ∈ ([] : List NodeItem))))).length < 2 * nodes.length + 2 := by
    have h1 : ((nodes.filter (fun n => initIncoming nodes n.stage.id == 0)).reverse).length ≤
        nodes.length := by
      rw [List.length_reverse]
      exact List.length_filter_le _ _
    have h2 : (nodes.filter (fun v =>
        !(decide (v ∈ (nodes.filter (fun n => initIncoming nodes n.stage.id == 0)).reverse) ||
          decide (v ∈ ([] : List NodeItem))))).length ≤ nodes.length :=
      List.length_filter_le _ _
    omega
  obtain ⟨accF, incF, heq, hfin⟩ := kahnLoop_post hwf (2 * nodes.length + 2)
    (initIncoming nodes)
    ((nodes.filter (fun n => initIncoming nodes n.stage.id == 0)).reverse) [] hinv0 hmeas
  intro v hv
  have hvacc := kahnInv_final_complete hwf hval hA hfin v hv
  unfold kahnOrder
  rw [show accIds ([] : List NodeItem) = [] from rfl] at heq
  rw [heq]
  rw [List.mem_reverse]
  exact hvacc

theorem sumChildrenIin_eq_pairs (l : List NodeItem) (pid : String) :
    sumChildrenIin l pid =
      ((erases l).map (fun st => (st.upstream, st.i_in))).foldl
        (fun acc p => if p.1 == some pid then F.add acc p.2 else acc) (F.int 0) := by
  unfold sumChildrenIin erases
  rw [List.map_map, List.foldl_map]
  rfl

theorem sumChildrenIin_congr {n1 n2 : List NodeItem} (h : erases n1 = erases n2)
    (pid : String) : sumChildrenIin n1 pid = sumChildrenIin n2 pid := by
  rw [sumChildrenIin_eq_pairs, sumChildrenIin_eq_pairs, h]

theorem erases_updateStage (nodes : List NodeItem) (i : String)
    (f : PowerStage → PowerStage) (hf : ∀ st, eraseIout (f st) = eraseIout st) :
    erases (updateStage nodes i f) = erases nodes := by
  unfold erases updateStage
  rw [List.map_map]
  apply List.map_congr_left
  intro n _
  by_cases h : n.stage.id == i
  · simp only [Function.comp_apply, h, if_true, hf]
  · simp only [Function.comp_apply, h, if_false]
    rfl

/-- Invariant of the bottom-up currents fold: the non-`iout` data never
changes, and every id already processed holds its final value (which
depends only on the unchanging data, so repeated updates agree). -/
theorem crc_fold_spec (nodes : List NodeItem) :
    ∀ (L : List NodeItem) (acc : List NodeItem) (D : String → Prop),
      erases acc = erases nodes →
      (∀ m ∈ acc, D m.stage.id → m.stage.iout_user = wantedIout nodes m.stage) →
      erases (L.foldl
        (fun acc n =>
          updateStage acc n.stage.id
            (fun st =>
              if pyUpper st.stage_type = "LOAD" then { st with iout_user := st.load_current }
              else { st with iout_user := sumChildrenIin acc n.stage.id }))
        acc) = erases nodes ∧
      (∀ m ∈ (L.foldl
        (fun acc n =>
          updateStage acc n.stage.id
            (fun st =>
              if pyUpper st.stage_type = "LOAD" then { st with iout_user := st.load_current }
              else { st with iout_user := sumChildrenIin acc n.stage.id }))
        acc),
        (D m.stage.id ∨ m.stage.id ∈ L.map (fun n => n.stage.id)) →
          m.stage.iout_user = wantedIout nodes m.stage) := by
  intro L
  induction L with
  | nil =>
    intro acc D h1 h2
    refine ⟨h1, ?_⟩
    intro m hm hD
    rcases hD with hD | hD
    · exact h2 m hm hD
    · cases hD
  | cons n L' ih =>
    intro acc D h1 h2
    simp only [List.foldl_cons]
    have hstep_erase : erases (updateStage acc n.stage.id
        (fun st =>
          if pyUpper st.stage_type = "LOAD" then { st with iout_user := st.load_current }
          else { st with iout_user := sumChildrenIin acc n.stage.id })) = erases nodes := by
      rw [← h1]
      apply erases_updateStage
      intro st
      split
      · rfl
      · rfl
    have hstep_done : ∀ m ∈ updateStage acc n.stage.id
        (fun st =>
          if pyUpper st.stage_type = "LOAD" then { st with iout_user := st.load_current }
          else { st with iout_user := sumChildrenIin acc n.stage.id }),
        (D m.stage.id ∨ m.stage.id = n.stage.id) →
          m.stage.iout_user = wantedIout nodes m.stage := by
      intro m hm hD
      obtain ⟨m₀, hm₀, he⟩ := List.mem_map.mp hm
      by_cases hc : m₀.stage.id == n.stage.id
      · rw [if_pos hc] at he
        subst he
        dsimp only
        have hid : m₀.stage.id = n.stage.id := beq_iff_eq.mp hc
        by_cases hld : pyUpper m₀.stage.stage_type = "LOAD"
        · rw [if_pos hld]
          unfold wantedIout
          dsimp only
          rw [if_pos hld]
        · rw [if_neg hld]
          unfold wantedIout
          dsimp only
          rw [if_neg hld, hid]
          exact sumChildrenIin_congr h1 n.stage.id
      · rw [if_neg (by simpa using hc)] at he
        subst he
        rcases hD with hD | hD
        · exact h2 m₀ hm₀ hD
        · exact absurd hD (by simpa using hc)
    obtain ⟨ih1, ih2⟩ := ih _ (fun i => D i ∨ i = n.stage.id) hstep_erase hstep_done
    refine ⟨ih1, ?_⟩
    intro m hm hD
    apply ih2 m hm
    rcases hD with hD | hD
    · exact Or.inl (Or.inl hD)
    · rcases List.mem_cons.mp (show m.stage.id ∈
          n.stage.id :: L'.map (fun n => n.stage.id) from hD) with h | h
      · exact Or.inl (Or.inr h)
      · exact Or.inr h

theorem iout_compute (st : PowerStage) (uv : Option F) :
    (st.compute uv).iout_user = st.iout_user ∧ (st.compute uv).id = st.id := by
  unfold PowerStage.compute
  dsimp only
  repeat' split
  all_goals exact ⟨rfl, rfl⟩

theorem iouts_updateStage (nodes : List NodeItem) (i : String)
    (f : PowerStage → PowerStage)
    (hf : ∀ st, (f st).iout_user = st.iout_user ∧ (f st).id = st.id) :
    iouts (updateStage nodes i f) = iouts nodes := by
  unfold iouts updateStage
  rw [List.map_map]
  apply List.map_congr_left
  intro n _
  by_cases h : n.stage.id == i
  · simp only [Function.comp_apply, h, if_true]
    rw [(hf n.stage).1, (hf n.stage).2]
  · simp only [Function.comp_apply, h, if_false]
    rfl

theorem iouts_computeSweep (order : List String) (nodes : List NodeItem) :
    iouts (computeSweep order nodes) = iouts nodes := by
  unfold computeSweep
  refine List.foldlRecOn (motive := fun acc => iouts acc = iouts nodes) _ _ _ rfl ?_
  intro acc hacc i _
  rw [← hacc]
  split
  · rfl
  · exact iouts_updateStage _ _ _ (fun st => iout_compute st _)

theorem iouts_supplyCheck (nodes : List NodeItem) :
    iouts (supplyCheck nodes) = iouts nodes := by
  unfold supplyCheck
  refine List.foldlRecOn (motive := fun acc => iouts acc = iouts nodes) _ _ _ rfl ?_
  intro acc hacc i _
  rw [← hacc]
  split
  · rfl
  · split
    · dsimp only
      split
      · exact iouts_updateStage _ _ _ (fun st => ⟨rfl, rfl⟩)
      · split
        · exact iouts_updateStage _ _ _ (fun st => ⟨rfl, rfl⟩)
        · rfl
    · rfl

/-- At any fixpoint of one recompute pass on a well-formed acyclic
store, the requested currents satisfy exact conservation. -/
theorem conservation_of_fix {nodes : List NodeItem} (hwf : WFNodes nodes)
    (hval : UpValid nodes) (hA : AcyclicNodes nodes)
    (hfix : onePass nodes = nodes) :
    ∀ n ∈ nodes,
      n.stage.iout_user =
        (if pyUpper n.stage.stage_type = "LOAD" then n.stage.load_current
         else sumChildrenIin nodes n.stage.id) := by
  have hspec := crc_fold_spec nodes (kahnOrder nodes).reverse nodes (fun _ => False)
    rfl (fun m _ hF => absurd hF (fun h => h))
  have hcrc : compute_requested_currents nodes =
      (kahnOrder nodes).reverse.foldl
        (fun acc n =>
          updateStage acc n.stage.id
            (fun st =>
              if pyUpper st.stage_type = "LOAD" then { st with iout_user := st.load_current }
              else { st with iout_user := sumChildrenIin acc n.stage.id }))
        nodes := rfl
  rw [← hcrc] at hspec
  obtain ⟨herase, hdone⟩ := hspec
  have hio : iouts nodes = iouts (compute_requested_currents nodes) := by
    conv_lhs => rw [← hfix]
    unfold onePass
    rw [iouts_supplyCheck, iouts_computeSweep]
  intro n hn
  obtain ⟨k, hk, hkn⟩ := List.getElem_of_mem hn
  have hlen1 : (compute_requested_currents nodes).length = nodes.length := by
    have := congrArg List.length herase
    unfold erases at this
    simpa using this
  have hk2 : k < (compute_requested_currents nodes).length := by omega
  have hiok : (n.stage.id, n.stage.iout_user) =
      ((compute_requested_currents nodes)[k].stage.id,
       (compute_requested_currents nodes)[k].stage.iout_user) := by
    have h1 := congrArg (fun l => l[k]?) hio
    unfold iouts at h1
    simp only [List.getElem?_map] at h1
    rw [List.getElem?_eq_getElem hk, List.getElem?_eq_getElem hk2] at h1
    simp only [Option.map_some'] at h1
    rw [hkn] at h1
    exact Option.some_inj.mp h1
  have hek : eraseIout n.stage = eraseIout (compute_requested_currents nodes)[k].stage := by
    have h1 := congrArg (fun l => l[k]?) herase
    unfold erases at h1
    simp only [List.getElem?_map] at h1
    rw [List.getElem?_eq_getElem hk2, List.getElem?_eq_getElem hk] at h1
    simp only [Option.map_some'] at h1
    rw [hkn] at h1
    exact (Option.some_inj.mp h1).symm
  have hmem2 : (compute_requested_currents nodes)[k] ∈ compute_requested_currents nodes :=
    List.getElem_mem hk2
  have hidk : n.stage.id = (compute_requested_currents nodes)[k].stage.id :=
    congrArg Prod.fst hiok
  have hiok2 : n.stage.iout_user = (compute_requested_currents nodes)[k].stage.iout_user :=
    congrArg Prod.snd hiok
  have hink : (compute_requested_currents nodes)[k].stage.id ∈
      ((kahnOrder nodes).reverse).map (fun n => n.stage.id) := by
    rw [← hidk]
    have : n ∈ kahnOrder nodes := kahn_complete hwf hval hA n hn
    exact List.mem_map.mpr ⟨n, List.mem_reverse.mpr this, rfl⟩
  have hval2 := hdone _ hmem2 (Or.inr hink)
  rw [hiok2, hval2]
  unfold wantedIout
  have hst : (compute_requested_currents nodes)[k].stage.stage_type = n.stage.stage_type := by
    have := congrArg PowerStage.stage_type hek
    exact this.symm
  have hlc : (compute_requested_currents nodes)[k].stage.load_current =
      n.stage.load_current := by
    have := congrArg PowerStage.load_current hek
    exact this.symm
  rw [hst, hlc, ← hidk]

/-- A pass fixpoint is a fixpoint of the whole recompute driver. -/
theorem recompute_all_fix {s : PowerScene} (h : onePass s.nodes = s.nodes) :
    PowerScene.recompute_all s = s := by
  unfold PowerScene.recompute_all
  have hk : ∀ k, Nat.iterate onePass k s.nodes = s.nodes := by
    intro k
    induction k with
    | zero => rfl
    | succ k ihk => rw [Function.iterate_succ_apply, h, ihk]
  rw [hk]

theorem wf_of_confs {n1 n2 : List NodeItem} (h : confs n1 = confs n2)
    (hwf : WFNodes n1) : WFNodes n2 := by
  rw [wf_ids] at hwf ⊢
  rw [← idsOf_eq_of_confs h]
  exact hwf

theorem upValid_of_skeleton {n1 n2 : List NodeItem} (h : skeleton n1 = skeleton n2)
    (hval : UpValid n1) : UpValid n2 := by
  intro n hn u hu
  have hmem : (n.stage.id, n.stage.upstream) ∈ skeleton n1 := by
    rw [h]
    exact List.mem_map.mpr ⟨n, hn, rfl⟩
  obtain ⟨m, hm, he⟩ := List.mem_map.mp hmem
  have h2 : m.stage.upstream = n.stage.upstream := congrArg Prod.snd he
  have hids : idsOf n1 = idsOf n2 := by
    have e1 : idsOf n1 = (skeleton n1).map (fun p => p.1) := by
      unfold idsOf skeleton
      rw [List.map_map]
      rfl
    have e2 : idsOf n2 = (skeleton n2).map (fun p => p.1) := by
      unfold idsOf skeleton
      rw [List.map_map]
      rfl
    rw [e1, e2, h]
  obtain ⟨hv1, hv2⟩ := hval m hm u (by rw [h2, hu])
  exact ⟨hv1, hids ▸ hv2⟩

theorem sumChildrenIin_eq_zero {nodes : List NodeItem} {pid : String}
    (h : ∀ c ∈ nodes, c.stage.upstream ≠ some pid) :
    sumChildrenIin nodes pid = F.int 0 := by
  unfold sumChildrenIin
  induction nodes with
  | nil => rfl
  | cons c rest ih =>
    rw [List.foldl_cons]
    have : (c.stage.upstream == some pid) = false := by
      rw [beq_eq_false_iff_ne]
      exact h c (List.mem_cons_self _ _)
    rw [this]
    simp only [Bool.false_eq_true, if_false]
    exact ih (fun d hd => h d (List.mem_cons_of_mem _ hd))

theorem nodesGet_updateStage (nodes : List NodeItem) (i j : String)
    (f : PowerStage → PowerStage) (hf : ∀ st, (f st).id = st.id) :
    nodesGet (updateStage nodes i f) j =
      (nodesGet nodes j).map
        (fun n => if n.stage.id == i then { n with stage := f n.stage } else n) := by
  unfold nodesGet updateStage
  rw [List.find?_map]
  have hpq : ((fun n : NodeItem => n.stage.id == j) ∘
      (fun n => if n.stage.id == i then { n with stage := f n.stage } else n)) =
      (fun n : NodeItem => n.stage.id == j) := by
    funext n
    by_cases h : n.stage.id == i
    · simp only [Function.comp_apply, h, if_true]
      rw [hf]
    · simp only [Function.comp_apply, h, Bool.false_eq_true, if_false]
  rw [hpq]

theorem nodesGet_of_skeleton_pair {nodes : List NodeItem}
    (hnd : (idsOf nodes).Nodup) {i : String} {up : Option String}
    (h : (i, up) ∈ skeleton nodes) :
    ∃ n, nodesGet nodes i = some n ∧ n.stage.upstream = up ∧ n.stage.id = i := by
  obtain ⟨n, hn, he⟩ := List.mem_map.mp h
  have h1 : n.stage.id = i := congrArg Prod.fst he
  have h2 : n.stage.upstream = up := congrArg Prod.snd he
  exact ⟨n, h1 ▸ nodesGet_of_mem hnd hn, h2, h1⟩

/-- Claim C5: for every LDO or DCDC stage, `compute` produces the shared tail
formulas, with the zero-efficiency and zero-input-voltage cases
degrading to `+inf` instead of raising (the embedding is total, and the
formulas below return `F.inf` exactly in those cases). -/
theorem C5_ldo_dcdc_tail (st : PowerStage) (uv : Option F)
    (h : pyUpper st.stage_type = "LDO" ∨ pyUpper st.stage_type = "DCDC") :
    (st.compute uv).vin_effective = uv.getD st.vin_nom ∧
    (st.compute uv).p_out = F.mul (F.abs st.vout) st.iout_user ∧
    (st.compute uv).p_in =
      (if F.lt (F.int 0) (st.compute uv).eff_effective then
        F.div (st.compute uv).p_out (st.compute uv).eff_effective
      else F.inf) ∧
    (st.compute uv).i_in =
      (if F.isZero (st.compute uv).vin_effective then F.inf
       else F.div (st.compute uv).p_in (F.abs (st.compute uv).vin_effective)) ∧
    (st.compute uv).p_iq =
      F.mul (F.div st.iq (F.int 1000000)) (st.compute uv).vin_effective ∧
    (st.compute uv).p_diss =
      (if F.isfinite (st.compute uv).p_in then
        F.sub (st.compute uv).p_in (st.compute uv).p_out
      else F.inf) ∧
    (st.compute uv).p_tot =
      F.add (if F.isfinite (st.compute uv).p_diss then (st.compute uv).p_diss else F.int 0)
        (st.compute uv).p_iq := by
  have hni : pyUpper st.stage_type ≠ "INPUT" := by
    rcases h with h | h <;> rw [h] <;> decide
  have hnl : pyUpper st.stage_type ≠ "LOAD" := by
    rcases h with h | h <;> rw [h] <;> decide
  unfold PowerStage.compute
  dsimp only
  rw [if_neg hni, if_neg hnl, if_pos h]
  exact ⟨rfl, rfl, rfl, rfl, rfl, rfl, rfl⟩

/-- Closed witness for `C5_ldo_dcdc_tail`, at a default LDO stage fed a
zero upstream voltage (the degenerate case the claim singles out). -/
theorem C5_ldo_dcdc_tail_witness :
    (pyUpper ({ id := "r" } : PowerStage).stage_type = "LDO" ∨
     pyUpper ({ id := "r" } : PowerStage).stage_type = "DCDC") ∧
    ((({ id := "r" } : PowerStage).compute (some (F.int 0))).vin_effective
        = (some (F.int 0)).getD ({ id := "r" } : PowerStage).vin_nom ∧
     (({ id := "r" } : PowerStage).compute (some (F.int 0))).p_out
        = F.mul (F.abs ({ id := "r" } : PowerStage).vout)
            ({ id := "r" } : PowerStage).iout_user ∧
     (({ id := "r" } : PowerStage).compute (some (F.int 0))).p_in =
      (if F.lt (F.int 0) ((({ id := "r" } : PowerStage).compute (some (F.int 0))).eff_effective) then
        F.div ((({ id := "r" } : PowerStage).compute (some (F.int 0))).p_out)
          ((({ id := "r" } : PowerStage).compute (some (F.int 0))).eff_effective)
      else F.inf) ∧
     (({ id := "r" } : PowerStage).compute (some (F.int 0))).i_in =
      (if F.isZero ((({ id := "r" } : PowerStage).compute (some (F.int 0))).vin_effective) then F.inf
       else F.div ((({ id := "r" } : PowerStage).compute (some (F.int 0))).p_in)
         (F.abs ((({ id := "r" } : PowerStage).compute (some (F.int 0))).vin_effective))) ∧
     (({ id := "r" } : PowerStage).compute (some (F.int 0))).p_iq =
      F.mul (F.div ({ id := "r" } : PowerStage).iq (F.int 1000000))
        ((({ id := "r" } : PowerStage).compute (some (F.int 0))).vin_effective) ∧
     (({ id := "r" } : PowerStage).compute (some (F.int 0))).p_diss =
      (if F.isfinite ((({ id := "r" } : PowerStage).compute (some (F.int 0))).p_in) then
        F.sub ((({ id := "r" } : PowerStage).compute (some (F.int 0))).p_in)
          ((({ id := "r" } : PowerStage).compute (some (F.int 0))).p_out)
      else F.inf) ∧
     (({ id := "r" } : PowerStage).compute (some (F.int 0))).p_tot =
      F.add (if F.isfinite ((({ id := "r" } : PowerStage).compute (some (F.int 0))).p_diss) then
          (({ id := "r" } : PowerStage).compute (some (F.int 0))).p_diss else F.int 0)
        ((({ id := "r" } : PowerStage).compute (some (F.int 0))).p_iq)) :=
  ⟨Or.inl (by decide), C5_ldo_dcdc_tail _ _ (Or.inl (by decide))⟩

/-- Claim C6 (amended): for every INPUT stage, `compute` sets `vin_effective`
to the upstream voltage when one is supplied and only falls back to the
stage's own `vin_nom` when none is, emits the out-of-range diagnostic
exactly when `vout` lies outside `[vin_min, vin_max]`, sets
`p_out = p_in = vout * iout_user` and `i_in = iout_user`, and leaves
`eff_effective`, `p_diss`, `p_iq` and `p_tot` untouched. -/
theorem C6_input_branch (st : PowerStage) (uv : Option F)
    (h : pyUpper st.stage_type = "INPUT") :
    (st.compute uv).vin_effective = uv.getD st.vin_nom ∧
    (st.compute uv).errors =
      (if F.le st.vin_min st.vout && F.le st.vout st.vin_max then []
       else [Diag.source_range st.name st.vout st.vin_min st.vin_max]) ∧
    (st.compute uv).p_out = F.mul st.vout st.iout_user ∧
    (st.compute uv).p_in = F.mul st.vout st.iout_user ∧
    (st.compute uv).i_in = st.iout_user ∧
    (st.compute uv).eff_effective = st.eff_effective ∧
    (st.compute uv).p_diss = st.p_diss ∧
    (st.compute uv).p_iq = st.p_iq ∧
    (st.compute uv).p_tot = st.p_tot := by
  unfold PowerStage.compute
  dsimp only
  rw [if_pos h]
  exact ⟨rfl, rfl, rfl, rfl, rfl, rfl, rfl, rfl, rfl⟩

/-- Closed witness for `C6_input_branch`: an INPUT stage fed an
upstream voltage of 7 V. -/
theorem C6_input_branch_witness :
    pyUpper ({ id := "s", stage_type := "INPUT" } : PowerStage).stage_type = "INPUT" ∧
    ((({ id := "s", stage_type := "INPUT" } : PowerStage).compute (some (F.int 7))).vin_effective
        = (some (F.int 7)).getD ({ id := "s", stage_type := "INPUT" } : PowerStage).vin_nom ∧
     (({ id := "s", stage_type := "INPUT" } : PowerStage).compute (some (F.int 7))).errors =
      (if F.le ({ id := "s", stage_type := "INPUT" } : PowerStage).vin_min
            ({ id := "s", stage_type := "INPUT" } : PowerStage).vout &&
          F.le ({ id := "s", stage_type := "INPUT" } : PowerStage).vout
            ({ id := "s", stage_type := "INPUT" } : PowerStage).vin_max then []
       else [Diag.source_range ({ id := "s", stage_type := "INPUT" } : PowerStage).name
          ({ id := "s", stage_type := "INPUT" } : PowerStage).vout
          ({ id := "s", stage_type := "INPUT" } : PowerStage).vin_min
          ({ id := "s", stage_type := "INPUT" } : PowerStage).vin_max]) ∧
     (({ id := "s", stage_type := "INPUT" } : PowerStage).compute (some (F.int 7))).p_out
        = F.mul ({ id := "s", stage_type := "INPUT" } : PowerStage).vout
            ({ id := "s", stage_type := "INPUT" } : PowerStage).iout_user ∧
     (({ id := "s", stage_type := "INPUT" } : PowerStage).compute (some (F.int 7))).p_in
        = F.mul ({ id := "s", stage_type := "INPUT" } : PowerStage).vout
            ({ id := "s", stage_type := "INPUT" } : PowerStage).iout_user ∧
     (({ id := "s", stage_type := "INPUT" } : PowerStage).compute (some (F.int 7))).i_in
        = ({ id := "s", stage_type := "INPUT" } : PowerStage).iout_user ∧
     (({ id := "s", stage_type := "INPUT" } : PowerStage).compute (some (F.int 7))).eff_effective
        = ({ id := "s", stage_type := "INPUT" } : PowerStage).eff_effective ∧
     (({ id := "s", stage_type := "INPUT" } : PowerStage).compute (some (F.int 7))).p_diss
        = ({ id := "s", stage_type := "INPUT" } : PowerStage).p_diss ∧
     (({ id := "s", stage_type := "INPUT" } : PowerStage).compute (some (F.int 7))).p_iq
        = ({ id := "s", stage_type := "INPUT" } : PowerStage).p_iq ∧
     (({ id := "s", stage_type := "INPUT" } : PowerStage).compute (some (F.int 7))).p_tot
        = ({ id := "s", stage_type := "INPUT" } : PowerStage).p_tot) :=
  ⟨by decide, C6_input_branch _ _ (by decide)⟩

/-- Claim C6 counterexample: an INPUT stage that is fed an upstream voltage
does NOT keep `vin_effective = vin_nom`; the upstream voltage wins. -/
theorem C6_counterexample :
    (({ id := "s", stage_type := "INPUT" } : PowerStage).compute (some (F.int 7))).vin_effective
        = F.int 7 ∧
    ({ id := "s", stage_type := "INPUT" } : PowerStage).vin_nom = F.int 12 ∧
    (F.int 7 : F) ≠ F.int 12 := by
  decide

/-- Claim C2 counterexample: a call with `src == dst` on a destination that
already has an upstream is reported as `DestinationAlreadyConnected`,
not as `SelfLoop`: the occupied-destination check runs first. -/
theorem C2_counterexample :
    (cexSceneC2.add_edge "a" "a").2 =
      AddEdgeResult.rejected AddEdgeError.destinationAlreadyConnected ∧
    AddEdgeResult.rejected AddEdgeError.destinationAlreadyConnected ≠
      AddEdgeResult.rejected AddEdgeError.selfLoop := by
  decide

/-- Claim C2 (amended): `add_edge` checks, in this order: destination already
connected, then self loop, then cycle; otherwise it succeeds and the
destination's upstream pointer is set to the source id. -/
theorem C2_add_edge_order (s : PowerScene) (srcId dstId : String) (src dst : NodeItem)
    (hnd : (idsOf s.nodes).Nodup)
    (hs : nodesGet s.nodes srcId = some src) (hd : nodesGet s.nodes dstId = some dst) :
    (s.add_edge srcId dstId).2 =
      (if dst.stage.upstream.isSome then
        AddEdgeResult.rejected AddEdgeError.destinationAlreadyConnected
      else if src.stage.id = dst.stage.id then
        AddEdgeResult.rejected AddEdgeError.selfLoop
      else if s.creates_cycle src dst then
        AddEdgeResult.rejected AddEdgeError.cycleDetected
      else AddEdgeResult.ok) ∧
    ((s.add_edge srcId dstId).2 = AddEdgeResult.ok →
      ∃ dst', nodesGet (s.add_edge srcId dstId).1.nodes dstId = some dst' ∧
        dst'.stage.upstream = some srcId) := by
  obtain ⟨hsm, hsid⟩ := nodesGet_some hs
  obtain ⟨hdm, hdid⟩ := nodesGet_some hd
  unfold PowerScene.add_edge
  rw [hs, hd]
  dsimp only
  by_cases h1 : dst.stage.upstream.isSome
  · rw [if_pos h1, if_pos h1]
    exact ⟨rfl, fun hok => by simp at hok⟩
  rw [if_neg h1, if_neg h1]
  by_cases h2 : src.stage.id = dst.stage.id
  · rw [if_pos h2, if_pos h2]
    exact ⟨rfl, fun hok => by simp at hok⟩
  rw [if_neg h2, if_neg h2]
  by_cases h3 : s.creates_cycle src dst = true
  · rw [if_pos h3, if_pos h3]
    exact ⟨rfl, fun hok => by simp at hok⟩
  rw [if_neg h3, if_neg h3]
  refine ⟨rfl, fun _ => ?_⟩
  set nodes' := updateStage s.nodes dst.stage.id
    (fun st => { st with upstream := some src.stage.id }) with hn'
  have hget' : nodesGet nodes' dstId =
      some ⟨{ dst.stage with upstream := some src.stage.id }, dst.pos⟩ := by
    rw [hn', nodesGet_updateStage s.nodes dst.stage.id dstId
      (fun st => { st with upstream := some src.stage.id }) (fun st => rfl), hd]
    simp only [Option.map_some', beq_self_eq_true, if_true]
  have hmem' : (⟨{ dst.stage with upstream := some src.stage.id }, dst.pos⟩ : NodeItem) ∈ nodes' :=
    (nodesGet_some hget').1
  have hpair : (dstId, some srcId) ∈ skeleton nodes' := by
    have hp0 : (dst.stage.id, some src.stage.id) ∈ skeleton nodes' :=
      List.mem_map.mpr ⟨_, hmem', rfl⟩
    rw [hdid, hsid] at hp0
    exact hp0
  have hskel : skeleton (PowerScene.recompute_all
      { nodes := nodes', edges := s.edges ++ [(src.stage.id, dst.stage.id)] }).nodes
      = skeleton nodes' := skeleton_recompute_all _
  have hnd2 : (idsOf (PowerScene.recompute_all
      { nodes := nodes', edges := s.edges ++ [(src.stage.id, dst.stage.id)] }).nodes).Nodup := by
    rw [idsOf_eq_of_confs (confs_recompute_all _), hn',
      idsOf_updateStage s.nodes dst.stage.id
        (fun st => { st with upstream := some src.stage.id }) (fun st => rfl)]
    exact hnd
  obtain ⟨n, hg, hu, _⟩ := nodesGet_of_skeleton_pair hnd2 (by rw [hskel]; exact hpair)
  exact ⟨n, hg, hu⟩

/-- Closed witness for `C2_add_edge_order` on the two-node scene. -/
theorem C2_add_edge_order_witness :
    (idsOf wsceneC2.nodes).Nodup ∧
    nodesGet wsceneC2.nodes "a" = some wnodeA ∧
    nodesGet wsceneC2.nodes "b" = some wnodeB ∧
    ((wsceneC2.add_edge "a" "b").2 =
      (if wnodeB.stage.upstream.isSome then
        AddEdgeResult.rejected AddEdgeError.destinationAlreadyConnected
      else if wnodeA.stage.id = wnodeB.stage.id then
        AddEdgeResult.rejected AddEdgeError.selfLoop
      else if wsceneC2.creates_cycle wnodeA wnodeB then
        AddEdgeResult.rejected AddEdgeError.cycleDetected
      else AddEdgeResult.ok) ∧
    ((wsceneC2.add_edge "a" "b").2 = AddEdgeResult.ok →
      ∃ dst', nodesGet (wsceneC2.add_edge "a" "b").1.nodes "b" = some dst' ∧
        dst'.stage.upstream = some "a")) :=
  ⟨by decide, by decide, by decide,
   C2_add_edge_order wsceneC2 "a" "b" wnodeA wnodeB (by decide) (by decide) (by decide)⟩

theorem nodesGet_retypeNodes (g : String → String) (nodes : List NodeItem) (i : String) :
    nodesGet (retypeNodes g nodes) i =
      (nodesGet nodes i).map
        (fun n => { n with stage := { n.stage with stage_type := g n.stage.id } }) := by
  unfold nodesGet retypeNodes
  rw [List.find?_map]
  rfl

theorem walkAux_retypeNodes (g : String → String) (nodes : List NodeItem) (dstId : String) :
    ∀ (fuel : Nat) (visited : List String) (cur : NodeItem),
      walkAux (retypeNodes g nodes) dstId fuel visited
        { cur with stage := { cur.stage with stage_type := g cur.stage.id } } =
      walkAux nodes dstId fuel visited cur := by
  intro fuel
  induction fuel with
  | zero => intro visited cur; rfl
  | succ fuel ih =>
    intro visited cur
    unfold walkAux
    dsimp only
    by_cases hu : upstreamTruthy cur.stage.upstream
    · rw [if_pos hu, if_pos hu]
      by_cases hv : visited.contains (cur.stage.upstream.getD "")
      · rw [if_pos hv, if_pos hv]
      · rw [if_neg hv, if_neg hv]
        rw [nodesGet_retypeNodes]
        cases hup : nodesGet nodes (cur.stage.upstream.getD "") with
        | none => rfl
        | some upnode =>
          dsimp only [Option.map_some']
          by_cases hid : (upnode.stage.id == dstId)
          · rw [if_pos hid, if_pos hid]
          · rw [if_neg hid, if_neg hid]
            exact ih _ upnode
    · rw [if_neg hu, if_neg hu]

theorem creates_cycle_retype (g : String → String) (s : PowerScene) (src dst : NodeItem) :
    (retypeScene g s).creates_cycle
        { src with stage := { src.stage with stage_type := g src.stage.id } }
        { dst with stage := { dst.stage with stage_type := g dst.stage.id } } =
      s.creates_cycle src dst := by
  unfold PowerScene.creates_cycle retypeScene
  dsimp only
  have hlen : (retypeNodes g s.nodes).length = s.nodes.length := List.length_map _ _
  rw [hlen]
  exact walkAux_retypeNodes g s.nodes dst.stage.id _ [] src

/-- Claim C10: `add_edge` imposes no constraint on stage types.  Rewriting
every stage type arbitrarily (so any node can be made a SOURCE or a
LOAD) never changes the outcome of a call, and a call succeeds exactly
when none of the three structural rejections (occupied destination,
self loop, cycle) applies. -/
theorem C10_no_type_constraint (s : PowerScene) (g : String → String)
    (srcId dstId : String) (src dst : NodeItem)
    (hs : nodesGet s.nodes srcId = some src) (hd : nodesGet s.nodes dstId = some dst) :
    ((retypeScene g s).add_edge srcId dstId).2 = (s.add_edge srcId dstId).2 ∧
    ((s.add_edge srcId dstId).2 = AddEdgeResult.ok ↔
      dst.stage.upstream = none ∧ src.stage.id ≠ dst.stage.id ∧
        s.creates_cycle src dst = false) := by
  have hs' : nodesGet (retypeScene g s).nodes srcId =
      some { src with stage := { src.stage with stage_type := g src.stage.id } } := by
    show nodesGet (retypeNodes g s.nodes) srcId = _
    rw [nodesGet_retypeNodes, hs]
    rfl
  have hd' : nodesGet (retypeScene g s).nodes dstId =
      some { dst with stage := { dst.stage with stage_type := g dst.stage.id } } := by
    show nodesGet (retypeNodes g s.nodes) dstId = _
    rw [nodesGet_retypeNodes, hd]
    rfl
  unfold PowerScene.add_edge
  rw [hs, hd, hs', hd']
  dsimp only
  rw [creates_cycle_retype]
  by_cases h1 : dst.stage.upstream.isSome
  · rw [if_pos h1, if_pos h1]
    refine ⟨rfl, ?_⟩
    constructor
    · intro hok; simp at hok
    · rintro ⟨ha, -, -⟩
      rw [ha] at h1
      simp at h1
  rw [if_neg h1, if_neg h1]
  by_cases h2 : src.stage.id = dst.stage.id
  · rw [if_pos h2, if_pos h2]
    refine ⟨rfl, ?_⟩
    constructor
    · intro hok; simp at hok
    · rintro ⟨-, hb, -⟩
      exact absurd h2 hb
  rw [if_neg h2, if_neg h2]
  by_cases h3 : s.creates_cycle src dst = true
  · rw [if_pos h3, if_pos h3]
    refine ⟨rfl, ?_⟩
    constructor
    · intro hok; simp at hok
    · rintro ⟨-, -, hc⟩
      rw [h3] at hc
      cases hc
  rw [if_neg h3, if_neg h3]
  refine ⟨rfl, ?_⟩
  constructor
  · intro _
    refine ⟨Option.not_isSome_iff_eq_none.mp h1, h2, ?_⟩
    cases hcc : s.creates_cycle src dst
    · rfl
    · exact absurd hcc h3
  · intro _
    rfl

/-- Closed witness for `C10_no_type_constraint`: a LOAD feeding a
SOURCE, checked against the all-LOAD retyping of the same scene. -/
theorem C10_no_type_constraint_witness :
    nodesGet wscene10.nodes "b" = some wnode10B ∧
    nodesGet wscene10.nodes "a" = some wnode10A ∧
    (((retypeScene (fun _ => "LOAD") wscene10).add_edge "b" "a").2 =
        (wscene10.add_edge "b" "a").2 ∧
     ((wscene10.add_edge "b" "a").2 = AddEdgeResult.ok ↔
       wnode10A.stage.upstream = none ∧ wnode10B.stage.id ≠ wnode10A.stage.id ∧
         wscene10.creates_cycle wnode10B wnode10A = false)) :=
  ⟨by decide, by decide,
   C10_no_type_constraint wscene10 (fun _ => "LOAD") "b" "a" wnode10B wnode10A
     (by decide) (by decide)⟩

/-- Claim C1: along any sequence of `add_edge` calls from a well-formed
acyclic scene, every intermediate scene is well-formed and its upstream
relation acyclic, and every rejected call leaves the scene — nodes,
upstream pointers, every stage field, and edges — exactly unchanged
(in particular no recompute ran, as the rejecting branches return the
input scene itself). -/
theorem C1_acyclic_invariant (s : PowerScene) (hwf : WFNodes s.nodes)
    (hA : AcyclicNodes s.nodes) (calls : List (String × String)) :
    (∀ pre post, calls = pre ++ post →
      WFNodes (applyAddEdges s pre).nodes ∧ AcyclicNodes (applyAddEdges s pre).nodes) ∧
    (∀ pre c post, calls = pre ++ c :: post →
      ((applyAddEdges s pre).add_edge c.1 c.2).2 ≠ AddEdgeResult.ok →
        applyAddEdges s (pre ++ [c]) = applyAddEdges s pre) := by
  have key : ∀ (pre : List (String × String)) (t : PowerScene),
      WFNodes t.nodes → AcyclicNodes t.nodes →
      WFNodes (applyAddEdges t pre).nodes ∧ AcyclicNodes (applyAddEdges t pre).nodes := by
    intro pre
    induction pre with
    | nil => intro t h1 h2; exact ⟨h1, h2⟩
    | cons c rest ih =>
      intro t h1 h2
      obtain ⟨hw, ha, -⟩ := add_edge_preserves t h1 h2 c.1 c.2
      exact ih _ hw ha
  refine ⟨fun pre post _ => key pre s hwf hA, fun pre c post _ hne => ?_⟩
  obtain ⟨hw, ha⟩ := key pre s hwf hA
  obtain ⟨-, -, hstay⟩ := add_edge_preserves (applyAddEdges s pre) hw ha c.1 c.2
  show applyAddEdges s (pre ++ [c]) = applyAddEdges s pre
  unfold applyAddEdges
  rw [List.foldl_append]
  exact hstay hne

/-- Closed witness for `C1_acyclic_invariant`: two fresh nodes, a
successful call followed by a call rejected as a cycle. -/
theorem C1_acyclic_invariant_witness :
    WFNodes wsceneC2.nodes ∧ AcyclicNodes wsceneC2.nodes ∧
    ((∀ pre post, ([(("a" : String), ("b" : String)), ("b", "a")] : List (String × String))
          = pre ++ post →
      WFNodes (applyAddEdges wsceneC2 pre).nodes ∧
        AcyclicNodes (applyAddEdges wsceneC2 pre).nodes) ∧
    (∀ pre c post, ([(("a" : String), ("b" : String)), ("b", "a")] : List (String × String))
          = pre ++ c :: post →
      ((applyAddEdges wsceneC2 pre).add_edge c.1 c.2).2 ≠ AddEdgeResult.ok →
        applyAddEdges wsceneC2 (pre ++ [c]) = applyAddEdges wsceneC2 pre)) :=
  ⟨by decide, (acyclicB_iff (by decide)).mp (by decide),
   C1_acyclic_invariant wsceneC2 (by decide) ((acyclicB_iff (by decide)).mp (by decide))
     [("a", "b"), ("b", "a")]⟩

theorem cexChain_pass1 : onePass cexChain.nodes = cexPass1 := by decide

theorem cexChain_pass2 : onePass cexPass1 = cexPass2 := by decide

theorem scnA_pass1 : onePass scnA.nodes = scnAPass1 := by decide

theorem scnA_pass2 : onePass scnAPass1 = scnAPass2 := by decide

theorem scnA_pass3 : onePass scnAPass2 = scnAPass3 := by decide

/-- On a scene whose INPUT-rooted depth is at most one (in particular
on scenes with no INPUT node at all), `recompute_all` is a single
pass. -/
theorem recompute_one_pass {s : PowerScene}
    (h1 : Nat.max 1 (scene_max_depth s.nodes) = 1) :
    PowerScene.recompute_all s = { s with nodes := onePass s.nodes } := by
  unfold PowerScene.recompute_all
  rw [h1, Function.iterate_one]

/-- Claim C3 counterexample: after `recompute_all` returns on the
`cexChain` scene, the middle LDO still requests 0 A while its LOAD
child draws 1 A: one pass is not enough to converge a depth-3 chain
with no INPUT root, so conservation fails at the state the call
returns. -/
theorem C3_counterexample :
    ∃ n ∈ (PowerScene.recompute_all cexChain).nodes,
      pyUpper n.stage.stage_type ≠ "LOAD" ∧
      n.stage.iout_user ≠
        sumChildrenIin (PowerScene.recompute_all cexChain).nodes n.stage.id := by
  have h1 : PowerScene.recompute_all cexChain
      = { nodes := onePass cexChain.nodes, edges := cexChain.edges } :=
    recompute_one_pass (by decide)
  rw [cexChain_pass1] at h1
  rw [h1]
  decide

/-- Claim C3 (amended): at any state left by `recompute_all` that is a
fixpoint of one further pass (the converged states), every LOAD
requests exactly its own `load_current`, every non-LOAD node requests
exactly the sum of `i_in` over its direct children, and a childless
non-LOAD node requests zero. -/
theorem C3_conservation_at_fixpoint (s : PowerScene) (hwf : WFNodes s.nodes)
    (hval : UpValid s.nodes) (hA : AcyclicNodes s.nodes)
    (hfix : onePass (PowerScene.recompute_all s).nodes
      = (PowerScene.recompute_all s).nodes) :
    ∀ n ∈ (PowerScene.recompute_all s).nodes,
      (pyUpper n.stage.stage_type = "LOAD" →
        n.stage.iout_user = n.stage.load_current) ∧
      (pyUpper n.stage.stage_type ≠ "LOAD" →
        n.stage.iout_user =
          sumChildrenIin (PowerScene.recompute_all s).nodes n.stage.id) ∧
      (pyUpper n.stage.stage_type ≠ "LOAD" ∧
        (∀ c ∈ (PowerScene.recompute_all s).nodes,
          c.stage.upstream ≠ some n.stage.id) →
        n.stage.iout_user = F.int 0) := by
  have hconf := confs_recompute_all s
  have hwf2 : WFNodes (PowerScene.recompute_all s).nodes :=
    wf_of_confs hconf.symm hwf
  have hval2 : UpValid (PowerScene.recompute_all s).nodes :=
    upValid_of_skeleton (skeleton_recompute_all s).symm hval
  have hA2 : AcyclicNodes (PowerScene.recompute_all s).nodes :=
    acyclic_of_skeleton (skeleton_recompute_all s).symm hA
  have hmain := conservation_of_fix hwf2 hval2 hA2 hfix
  intro n hn
  have h1 := hmain n hn
  refine ⟨?_, ?_, ?_⟩
  · intro hl
    rw [h1, if_pos hl]
  · intro hl
    rw [h1, if_neg hl]
  · rintro ⟨hl, hcs⟩
    rw [h1, if_neg hl]
    exact sumChildrenIin_eq_zero hcs

/-- Closed witness for `C3_conservation_at_fixpoint` on the converged
single-SOURCE scene. -/
theorem C3_conservation_at_fixpoint_witness :
    WFNodes wfixScene.nodes ∧ UpValid wfixScene.nodes ∧
    AcyclicNodes wfixScene.nodes ∧
    onePass (PowerScene.recompute_all wfixScene).nodes
      = (PowerScene.recompute_all wfixScene).nodes ∧
    (∀ n ∈ (PowerScene.recompute_all wfixScene).nodes,
      (pyUpper n.stage.stage_type = "LOAD" →
        n.stage.iout_user = n.stage.load_current) ∧
      (pyUpper n.stage.stage_type ≠ "LOAD" →
        n.stage.iout_user =
          sumChildrenIin (PowerScene.recompute_all wfixScene).nodes n.stage.id) ∧
      (pyUpper n.stage.stage_type ≠ "LOAD" ∧
        (∀ c ∈ (PowerScene.recompute_all wfixScene).nodes,
          c.stage.upstream ≠ some n.stage.id) →
        n.stage.iout_user = F.int 0)) := by
  have hfix : onePass (PowerScene.recompute_all wfixScene).nodes
      = (PowerScene.recompute_all wfixScene).nodes := by
    rw [recompute_all_fix (by decide : onePass wfixScene.nodes = wfixScene.nodes)]
    decide
  exact ⟨by decide, by decide, (acyclicB_iff (by decide)).mp (by decide), hfix,
    C3_conservation_at_fixpoint wfixScene (by decide) (by decide)
      ((acyclicB_iff (by decide)).mp (by decide)) hfix⟩

/-- Claim C4 counterexample: on the `cexChain` scene a second `recompute_all`
changes the computed fields again (the first call returned before the
load had propagated to the head of the chain), so recompute is not
idempotent on every state. -/
theorem C4_counterexample :
    PowerScene.recompute_all (PowerScene.recompute_all cexChain) ≠
      PowerScene.recompute_all cexChain := by
  have h1 : PowerScene.recompute_all cexChain
      = { nodes := onePass cexChain.nodes, edges := cexChain.edges } :=
    recompute_one_pass (by decide)
  rw [cexChain_pass1] at h1
  have h2 : PowerScene.recompute_all { nodes := cexPass1, edges := cexChain.edges }
      = { nodes := onePass cexPass1, edges := cexChain.edges } :=
    recompute_one_pass (by decide)
  rw [cexChain_pass2] at h2
  rw [h1, h2]
  decide

/-- Claim C4 (amended): `recompute_all` is idempotent on every scene whose
first recompute actually converged, i.e. whose result is a fixpoint of
one further pass; the second call then returns the state byte-for-byte
(nodes, every computed field, every diagnostics list, and edges). -/
theorem C4_recompute_idempotent_at_fixpoint (s : PowerScene)
    (hfix : onePass (PowerScene.recompute_all s).nodes
      = (PowerScene.recompute_all s).nodes) :
    PowerScene.recompute_all (PowerScene.recompute_all s)
      = PowerScene.recompute_all s :=
  recompute_all_fix hfix

/-- Closed witness for `C4_recompute_idempotent_at_fixpoint` on the
converged single-SOURCE scene. -/
theorem C4_recompute_idempotent_at_fixpoint_witness :
    onePass (PowerScene.recompute_all wfixScene).nodes
      = (PowerScene.recompute_all wfixScene).nodes ∧
    PowerScene.recompute_all (PowerScene.recompute_all wfixScene)
      = PowerScene.recompute_all wfixScene := by
  have hfix : onePass (PowerScene.recompute_all wfixScene).nodes
      = (PowerScene.recompute_all wfixScene).nodes := by
    rw [recompute_all_fix (by decide : onePass wfixScene.nodes = wfixScene.nodes)]
    decide
  exact ⟨hfix, C4_recompute_idempotent_at_fixpoint wfixScene hfix⟩

/-- Claim C9: on the concrete Scenario-A chain, after `recompute_all` the
LOAD draws 0.5 A, the LDO requests 0.5 A, runs at efficiency 5/12 and
delivers 2.5 W, and no node carries any diagnostic. -/
theorem C9_scenario_a :
    (nodesGet (PowerScene.recompute_all scnA).nodes "c").map
        (fun n => n.stage.i_in) = some (F.lit 1 2) ∧
    (nodesGet (PowerScene.recompute_all scnA).nodes "b").map
        (fun n => n.stage.iout_user) = some (F.lit 1 2) ∧
    (nodesGet (PowerScene.recompute_all scnA).nodes "b").map
        (fun n => n.stage.eff_effective) = some (F.lit 5 12) ∧
    (nodesGet (PowerScene.recompute_all scnA).nodes "b").map
        (fun n => n.stage.p_out) = some (F.lit 5 2) ∧
    (∀ n ∈ (PowerScene.recompute_all scnA).nodes, n.stage.errors = []) := by
  have h3 : PowerScene.recompute_all scnA = { nodes := scnAPass3, edges := scnA.edges } := by
    unfold PowerScene.recompute_all
    rw [show Nat.max 1 (scene_max_depth scnA.nodes) = 3 from by decide]
    rw [show (3 : Nat) = 2 + 1 from rfl, Function.iterate_succ_apply, scnA_pass1,
      show (2 : Nat) = 1 + 1 from rfl, Function.iterate_succ_apply, scnA_pass2,
      Function.iterate_one, scnA_pass3]
  rw [h3]
  decide

/-- Claim C7 counterexample: serialising and re-loading the state that
`recompute_all` left on the `cexChain` scene does not reproduce it —
the recompute triggered by `deserialize` advances the not-yet-converged
computed fields one more pass. -/
theorem C7_counterexample :
    PowerScene.deserialize (PowerScene.serialize (PowerScene.recompute_all cexChain)) ≠
      PowerScene.recompute_all cexChain := by
  have h1 : PowerScene.recompute_all cexChain
      = { nodes := onePass cexChain.nodes, edges := cexChain.edges } :=
    recompute_one_pass (by decide)
  rw [cexChain_pass1] at h1
  rw [h1]
  decide

/-- `from_dict` inverts `to_dict` field by field. -/
theorem from_dict_to_dict (st : PowerStage) :
    PowerStage.from_dict (PowerStage.to_dict st) = st := rfl

/-- Overwriting the upstream pointer with the value it already holds is
the identity. -/
theorem set_upstream_id {st : PowerStage} {u : String} (h : st.upstream = some u) :
    ({ st with upstream := some u } : PowerStage) = st := by
  rw [← h]

/-- An update that fixes the stage of every node carrying the targeted
id leaves the store unchanged. -/
theorem updateStage_id_self (nodes : List NodeItem) (i : String)
    (f : PowerStage → PowerStage)
    (hf : ∀ n ∈ nodes, n.stage.id = i → f n.stage = n.stage) :
    updateStage nodes i f = nodes := by
  unfold updateStage
  conv_rhs => rw [← List.map_id nodes]
  apply List.map_congr_left
  intro n hn
  by_cases h : n.stage.id == i
  · rw [if_pos h, hf n hn (eq_of_beq h)]
    rfl
  · rw [if_neg h]
    rfl

/-- Dictionary insertion of pairwise-fresh entries appends them in
order. -/
theorem nodesFold_fresh :
    ∀ (l acc : List NodeItem), (idsOf (acc ++ l)).Nodup →
      List.foldl nodesInsert acc l = acc ++ l := by
  intro l
  induction l with
  | nil =>
    intro acc _
    rw [List.foldl_nil, List.append_nil]
  | cons n rest ih =>
    intro acc h
    rw [List.foldl_cons]
    have hdisj : (idsOf acc).Disjoint (idsOf (n :: rest)) := by
      have h2 : (idsOf acc ++ idsOf (n :: rest)).Nodup := by
        rwa [idsOf, List.map_append] at h
      exact (List.nodup_append.mp h2).2.2
    have hfresh : (acc.any (fun m => m.stage.id == n.stage.id)) = false := by
      rw [List.any_eq_false]
      intro m hm hbeq
      have heq : m.stage.id = n.stage.id := eq_of_beq hbeq
      refine hdisj (List.mem_map.mpr ⟨m, hm, rfl⟩) ?_
      rw [heq]
      exact List.mem_map.mpr ⟨n, List.mem_cons_self _ _, rfl⟩
    have hins : nodesInsert acc n = acc ++ [n] := by
      unfold nodesInsert
      rw [hfresh]
      rfl
    rw [hins, ih (acc ++ [n]) (by rwa [List.append_cons] at h), ← List.append_cons]

/-- The edge loop of `deserialize` is the identity on the node store
and a copy of the edge list whenever every edge is already consistent
with the stored upstream pointers. -/
theorem edgeFold_consistent {nodes : List NodeItem} (hnd : (idsOf nodes).Nodup) :
    ∀ (edges : List (String × String)) (acc : List (String × String)),
      (∀ e ∈ edges, ∃ src dst, nodesGet nodes e.1 = some src ∧
        nodesGet nodes e.2 = some dst ∧ dst.stage.upstream = some src.stage.id) →
      List.foldl deserializeEdgeStep (nodes, acc) edges = (nodes, acc ++ edges) := by
  intro edges
  induction edges with
  | nil =>
    intro acc _
    rw [List.foldl_nil, List.append_nil]
  | cons e rest ih =>
    intro acc h
    obtain ⟨src, dst, hs, hd, hup⟩ := h e (List.mem_cons_self _ _)
    obtain ⟨hsm, hsid⟩ := nodesGet_some hs
    obtain ⟨hdm, hdid⟩ := nodesGet_some hd
    rw [List.foldl_cons]
    have hupd : updateStage nodes dst.stage.id
        (fun st => { st with upstream := some src.stage.id }) = nodes := by
      apply updateStage_id_self
      intro n hn hni
      have hn_eq : n = dst := id_inj hnd hn hdm (by rw [hni, hdid])
      rw [hn_eq]
      exact set_upstream_id hup
    have hstep : deserializeEdgeStep (nodes, acc) e = (nodes, acc ++ [e]) := by
      unfold deserializeEdgeStep
      dsimp only
      rw [hs, hd]
      dsimp only
      rw [hupd, hsid, hdid]
    rw [hstep, ih (acc ++ [e]) (fun x hx => h x (List.mem_cons_of_mem _ hx)),
      ← List.append_cons]

/-- Claim C7 (amended): serialisation round-trips exactly on the scenes whose
node store is converged (a fixpoint of one recompute pass), has unique
ids, and whose edge list matches the stored upstream pointers — the
states the mutation API leaves behind once the recompute it triggers
has actually converged.  Both the stage records and the edge list are
reproduced byte-for-byte. -/
theorem C7_roundtrip_of_converged (s : PowerScene)
    (hnd : (idsOf s.nodes).Nodup)
    (hcons : ∀ e ∈ s.edges, ∃ src dst, nodesGet s.nodes e.1 = some src ∧
      nodesGet s.nodes e.2 = some dst ∧ dst.stage.upstream = some src.stage.id)
    (hfix : onePass s.nodes = s.nodes) :
    PowerScene.deserialize (PowerScene.serialize s) = s := by
  unfold PowerScene.deserialize PowerScene.serialize
  dsimp only
  have hn1 : List.foldl
      (fun acc nd =>
        nodesInsert acc
          { stage := PowerStage.from_dict nd.stage,
            pos := nd.pos.getD (Q.ofInt 0, Q.ofInt 0) })
      []
      (s.nodes.map (fun n => ({ stage := n.stage.to_dict, pos := some n.pos } : DocNode)))
      = s.nodes := by
    rw [List.foldl_map]
    show List.foldl (fun acc n => nodesInsert acc n) [] s.nodes = s.nodes
    have h := nodesFold_fresh s.nodes [] (by rwa [List.nil_append])
    rwa [List.nil_append] at h
  rw [hn1]
  rw [edgeFold_consistent hnd s.edges [] hcons]
  dsimp only
  rw [List.nil_append]
  exact recompute_all_fix hfix

/-- Closed witness for `C7_roundtrip_of_converged` on the converged
single-SOURCE scene. -/
theorem C7_roundtrip_of_converged_witness :
    (idsOf wfixScene.nodes).Nodup ∧
    (∀ e ∈ wfixScene.edges, ∃ src dst, nodesGet wfixScene.nodes e.1 = some src ∧
      nodesGet wfixScene.nodes e.2 = some dst ∧
      dst.stage.upstream = some src.stage.id) ∧
    onePass wfixScene.nodes = wfixScene.nodes ∧
    PowerScene.deserialize (PowerScene.serialize wfixScene) = wfixScene :=
  ⟨by decide, fun e he => absurd he (List.not_mem_nil e), by decide,
   C7_roundtrip_of_converged wfixScene (by decide)
     (fun e he => absurd he (List.not_mem_nil e)) (by decide)⟩

/-- Claim C8 counterexample: `deserialize` copies the record's `upstream`
field verbatim; with an empty edge list the ghost pointer survives
loading instead of being cleared, so upstream pointers are not rebuilt
from the edge list alone. -/
theorem C8_counterexample :
    (PowerScene.deserialize ghostDoc).edges = [] ∧
    ∃ n ∈ (PowerScene.deserialize ghostDoc).nodes,
      n.stage.upstream = some "ghost" := by
  decide

theorem nodesGet_none_iff {nodes : List NodeItem} {x : String} :
    nodesGet nodes x = none ↔ x ∉ idsOf nodes := by
  unfold nodesGet idsOf
  rw [List.find?_eq_none]
  constructor
  · intro h hmem
    obtain ⟨n, hn, he⟩ := List.mem_map.mp hmem
    refine h n hn ?_
    rw [he]
    exact beq_self_eq_true x
  · intro h n hn hbeq
    exact h (List.mem_map.mpr ⟨n, hn, eq_of_beq hbeq⟩)

theorem confs_updateStage_upstream (nodes : List NodeItem) (i u : String) :
    confs (updateStage nodes i (fun st => { st with upstream := some u })) =
      (confs nodes).map
        (fun p => if p.1.id == i then ({ p.1 with upstream := some u }, p.2) else p) := by
  unfold confs updateStage
  rw [List.map_map, List.map_map]
  apply List.map_congr_left
  intro n _
  by_cases h : n.stage.id == i
  · simp only [Function.comp_apply, PowerStage.conf, h, if_true]
  · simp only [Function.comp_apply, PowerStage.conf, h, Bool.false_eq_true, if_false]

/-- The edge loop of `deserialize` rewrites each node's conf data by
folding the processed edges over its upstream field, exactly as
`overUp` describes. -/
theorem edgeFold_confs (ids : List String) :
    ∀ (edges : List (String × String)) (cur : List NodeItem)
      (acc : List (String × String)),
      (idsOf cur).Nodup → idsOf cur = ids →
      confs (List.foldl deserializeEdgeStep (cur, acc) edges).1 =
        (confs cur).map
          (fun p => ({ p.1 with upstream := overUp ids edges p.1.id p.1.upstream }, p.2)) := by
  intro edges
  induction edges with
  | nil =>
    intro cur acc _ _
    rw [List.foldl_nil]
    have hid : (fun (p : StageConf × (Q × Q)) =>
        ({ p.1 with upstream := overUp ids [] p.1.id p.1.upstream }, p.2)) = id := by
      funext p
      rfl
    rw [hid, List.map_id]
  | cons e rest ih =>
    intro cur acc hnd hids
    rw [List.foldl_cons]
    cases hse : nodesGet cur e.1 with
    | none =>
      have hm1 : e.1 ∉ ids := by
        rw [← hids]
        exact nodesGet_none_iff.mp hse
      have hstep : deserializeEdgeStep (cur, acc) e = (cur, acc) := by
        unfold deserializeEdgeStep
        dsimp only
        rw [hse]
      rw [hstep, ih cur acc hnd hids]
      apply List.map_congr_left
      intro p _
      have hover : overUp ids (e :: rest) p.1.id p.1.upstream
          = overUp ids rest p.1.id p.1.upstream := by
        unfold overUp
        rw [List.foldl_cons, if_neg (fun hc => hm1 hc.2.1)]
      rw [hover]
    | some src =>
      cases hsd : nodesGet cur e.2 with
      | none =>
        have hm2 : e.2 ∉ ids := by
          rw [← hids]
          exact nodesGet_none_iff.mp hsd
        have hstep : deserializeEdgeStep (cur, acc) e = (cur, acc) := by
          unfold deserializeEdgeStep
          dsimp only
          rw [hse, hsd]
        rw [hstep, ih cur acc hnd hids]
        apply List.map_congr_left
        intro p _
        have hover : overUp ids (e :: rest) p.1.id p.1.upstream
            = overUp ids rest p.1.id p.1.upstream := by
          unfold overUp
          rw [List.foldl_cons, if_neg (fun hc => hm2 hc.2.2)]
        rw [hover]
      | some dst =>
        obtain ⟨hsm, hsid⟩ := nodesGet_some hse
        obtain ⟨hdm, hdid⟩ := nodesGet_some hsd
        have hm1 : e.1 ∈ ids := by
          rw [← hids]
          exact List.mem_map.mpr ⟨src, hsm, hsid⟩
        have hm2 : e.2 ∈ ids := by
          rw [← hids]
          exact List.mem_map.mpr ⟨dst, hdm, hdid⟩
        have hstep : deserializeEdgeStep (cur, acc) e =
            (updateStage cur dst.stage.id
              (fun st => { st with upstream := some src.stage.id }),
             acc ++ [(src.stage.id, dst.stage.id)]) := by
          unfold deserializeEdgeStep
          dsimp only
          rw [hse, hsd]
        rw [hstep]
        have hnd2 : (idsOf (updateStage cur dst.stage.id
            (fun st => { st with upstream := some src.stage.id }))).Nodup := by
          rw [idsOf_updateStage cur dst.stage.id
            (fun st => { st with upstream := some src.stage.id }) (fun st => rfl)]
          exact hnd
        have hids2 : idsOf (updateStage cur dst.stage.id
            (fun st => { st with upstream := some src.stage.id })) = ids := by
          rw [idsOf_updateStage cur dst.stage.id
            (fun st => { st with upstream := some src.stage.id }) (fun st => rfl)]
          exact hids
        rw [ih _ _ hnd2 hids2, confs_updateStage_upstream, List.map_map]
        apply List.map_congr_left
        intro p _
        by_cases hpi : (p.1.id == e.2)
        · have h1 : (p.1.id == dst.stage.id) = true := by
            rw [hdid]
            exact hpi
          have hover : overUp ids (e :: rest) p.1.id p.1.upstream
              = overUp ids rest p.1.id (some e.1) := by
            unfold overUp
            rw [List.foldl_cons, if_pos ⟨(eq_of_beq hpi).symm, hm1, hm2⟩]
          simp only [Function.comp_apply, h1, if_true, hover, hsid]
        · have h1 : (p.1.id == dst.stage.id) = false := by
            rw [hdid]
            rw [Bool.not_eq_true] at hpi
            exact hpi
          have hover : overUp ids (e :: rest) p.1.id p.1.upstream
              = overUp ids rest p.1.id p.1.upstream := by
            unfold overUp
            have hcneg : ¬(e.2 = p.1.id ∧ e.1 ∈ ids ∧ e.2 ∈ ids) := by
              intro hc
              have hc2 : (p.1.id == e.2) = true := by
                rw [hc.1]
                exact beq_self_eq_true _
              exact hpi hc2
            rw [List.foldl_cons, if_neg hcneg]
          simp only [Function.comp_apply, h1, Bool.false_eq_true, if_false, hover]

/-- Claim C8 (amended): after `deserialize`, a node's upstream pointer is the
record's own `upstream` value (the type default `none` when the key is
missing) overridden by each document edge whose endpoints are both
loaded — the record value is the starting point and is never cleared;
and every stage field missing from a record takes the type default, as
the conf projection through `from_dict` states. -/
theorem C8_upstream_from_records (doc : Document)
    (hnd : (loadedIds doc).Nodup) :
    confs (PowerScene.deserialize doc).nodes =
      doc.nodes.map (fun nd =>
        ({ (PowerStage.from_dict nd.stage).conf with
            upstream := refUpstream doc nd.stage.id (nd.stage.upstream.getD none) },
         nd.pos.getD (Q.ofInt 0, Q.ofInt 0))) := by
  unfold PowerScene.deserialize
  dsimp only
  have hfold := (List.foldl_map
    (fun nd : DocNode =>
      (⟨PowerStage.from_dict nd.stage, nd.pos.getD (Q.ofInt 0, Q.ofInt 0)⟩ : NodeItem))
    nodesInsert doc.nodes ([] : List NodeItem)).symm
  have hidsl : idsOf (doc.nodes.map
      (fun nd : DocNode =>
        (⟨PowerStage.from_dict nd.stage, nd.pos.getD (Q.ofInt 0, Q.ofInt 0)⟩ : NodeItem)))
      = loadedIds doc := by
    unfold idsOf loadedIds
    rw [List.map_map]
    rfl
  have hn1 : doc.nodes.foldl
      (fun acc nd =>
        nodesInsert acc
          { stage := PowerStage.from_dict nd.stage,
            pos := nd.pos.getD (Q.ofInt 0, Q.ofInt 0) })
      []
      = doc.nodes.map
        (fun nd : DocNode =>
          (⟨PowerStage.from_dict nd.stage, nd.pos.getD (Q.ofInt 0, Q.ofInt 0)⟩ : NodeItem)) := by
    rw [hfold]
    have h := nodesFold_fresh
      (doc.nodes.map
        (fun nd : DocNode =>
          (⟨PowerStage.from_dict nd.stage, nd.pos.getD (Q.ofInt 0, Q.ofInt 0)⟩ : NodeItem)))
      [] (by rw [List.nil_append, hidsl]; exact hnd)
    rwa [List.nil_append] at h
  rw [hn1]
  rw [show confs (PowerScene.recompute_all
      { nodes := (List.foldl deserializeEdgeStep
          (doc.nodes.map
            (fun nd : DocNode =>
              (⟨PowerStage.from_dict nd.stage, nd.pos.getD (Q.ofInt 0, Q.ofInt 0)⟩ : NodeItem)),
           []) doc.edges).1,
        edges := (List.foldl deserializeEdgeStep
          (doc.nodes.map
            (fun nd : DocNode =>
              (⟨PowerStage.from_dict nd.stage, nd.pos.getD (Q.ofInt 0, Q.ofInt 0)⟩ : NodeItem)),
           []) doc.edges).2 }).nodes
      = confs (List.foldl deserializeEdgeStep
          (doc.nodes.map
            (fun nd : DocNode =>
              (⟨PowerStage.from_dict nd.stage, nd.pos.getD (Q.ofInt 0, Q.ofInt 0)⟩ : NodeItem)),
           []) doc.edges).1
    from confs_recompute_all _]
  rw [edgeFold_confs (loadedIds doc) doc.edges _ []
    (by rw [hidsl]; exact hnd) hidsl]
  unfold confs
  rw [List.map_map, List.map_map]
  apply List.map_congr_left
  intro nd _
  rfl

/-- Closed witness for `C8_upstream_from_records` on the ghost
document. -/
theorem C8_upstream_from_records_witness :
    (loadedIds ghostDoc).Nodup ∧
    confs (PowerScene.deserialize ghostDoc).nodes =
      ghostDoc.nodes.map (fun nd =>
        ({ (PowerStage.from_dict nd.stage).conf with
            upstream := refUpstream ghostDoc nd.stage.id (nd.stage.upstream.getD none) },
         nd.pos.getD (Q.ofInt 0, Q.ofInt 0))) :=
  ⟨by decide, C8_upstream_from_records ghostDoc (by decide)⟩
